import Mathlib

/-!
# Verification of the `FilePersistor` state-persistence subsystem

Shallow embedding of `src/mqtt/mqtt-broker/src/persist.rs` (the file-backed
`Persist` implementation of the MQTT broker) together with theorems settling
the specification claims about it.

Modelling conventions:
* Filenames are byte sequences (`List Nat`, ASCII codes), matching the
  byte-wise `OsString` ordering that `store`'s retention sort uses.
* The filesystem is an association list from absolute paths (directory
  identity × filename) to entries; an entry is a regular file with its byte
  content, or a symbolic link to a path.  Directory identities are abstract
  (`Nat`); the persistence directory and the process working directory are
  passed separately, because the pruning code removes files by bare filename
  (resolved against the working directory).
* `chrono::Utc::now()` is modelled by passing the current UTC time as an
  explicit `DateTime` argument; its `format("%Y-%m-%dT%H:%M:%S%.3f%z")` is
  embedded as `timestamp` below, following chrono's numeric formatting
  (zero-padded fields; years outside 0..9999 printed with an explicit sign).
* `bincode` + `GzEncoder` failures are injected through an explicit `serFail`
  flag (the spec speaks of simulated encoding failure), and per-entry
  `read_dir` inspection failures through an `inspectFail` predicate,
  mirroring the `.ok()` filtering in the pruning loop.
-/

namespace MqttPersist

/-- Filenames and file contents are byte sequences (ASCII codes). -/
abbrev Name := List Nat

/-- Abstract identity of a directory (the persistence dir, the process cwd, ...). -/
abbrev DirPath := Nat

/-- An absolute path: a directory identity together with a file name. -/
abbrev FPath := DirPath × Name

/-- Convert a string literal to its byte sequence. -/
def nameOf (s : String) : Name := s.data.map Char.toNat

/-- `const STATE_COUNT: usize = 2;` -/
def STATE_COUNT : Nat := 2

/-- `static STATE_DEFAULT_STEM: &str = "state";` -/
def STATE_DEFAULT_STEM : Name := nameOf "state"

/-- `static STATE_EXTENSION: &str = "dat";` -/
def STATE_EXTENSION : Name := nameOf "dat"

/-- The byte for `'.'`. -/
def dotByte : Name := nameOf "."

/-! ## Timestamp formatting (`chrono` format string `%Y-%m-%dT%H:%M:%S%.3f%z`) -/

/-- A UTC wall-clock time at millisecond precision, as used by
`chrono::Utc::now()`.  Years are restricted to the common era (chrono also
admits negative years; they do not occur in any claim's scope). -/
structure DateTime where
  year : Nat
  month : Nat
  day : Nat
  hour : Nat
  minute : Nat
  second : Nat
  millis : Nat
deriving DecidableEq, Repr

/-- Field validity for a `DateTime` (bounds used by the formatter). -/
def DateTime.valid (t : DateTime) : Prop :=
  1 ≤ t.month ∧ t.month ≤ 12 ∧ 1 ≤ t.day ∧ t.day ≤ 31 ∧
  t.hour < 24 ∧ t.minute < 60 ∧ t.second < 60 ∧ t.millis < 1000

instance (t : DateTime) : Decidable t.valid := by
  unfold DateTime.valid; infer_instance

/-- Chronological (lexicographic on fields) strict order at millisecond
precision. -/
def DateTime.lt (a b : DateTime) : Prop :=
  a.year < b.year ∨ (a.year = b.year ∧
    (a.month < b.month ∨ (a.month = b.month ∧
      (a.day < b.day ∨ (a.day = b.day ∧
        (a.hour < b.hour ∨ (a.hour = b.hour ∧
          (a.minute < b.minute ∨ (a.minute = b.minute ∧
            (a.second < b.second ∨ (a.second = b.second ∧
              a.millis < b.millis)))))))))))

instance (a b : DateTime) : Decidable (DateTime.lt a b) := by
  unfold DateTime.lt; infer_instance

/-- `n` printed in decimal, zero-padded/truncated to exactly `k` digits
(most significant first); equals `%0kd` for `n < 10^k`. -/
def padDigits : Nat → Nat → Name
  | 0, _ => []
  | k + 1, n => padDigits k (n / 10) ++ [48 + n % 10]

/-- Decimal digits of `n`, most significant first, no padding
(fuel-structured so that the kernel can evaluate it). -/
def natDigitsAux : Nat → Nat → Name
  | 0, _ => []
  | fuel + 1, n => if n < 10 then [48 + n] else natDigitsAux fuel (n / 10) ++ [48 + n % 10]

/-- Decimal digits of `n`, most significant first. -/
def natDigits (n : Nat) : Name := natDigitsAux (n + 1) n

/-- chrono's rendering of `%Y`: years `0..9999` are zero-padded to four
digits; years outside that range get an explicit sign (`'+'` is byte 43)
and at least five digits (no extra padding is needed for `y ≥ 10000`). -/
def formatYear (y : Nat) : Name :=
  if y < 10000 then padDigits 4 y else 43 :: natDigits y

/-- The embedding of `chrono`'s `format("%Y-%m-%dT%H:%M:%S%.3f%z")` on a UTC
time: `45 = '-'`, `84 = 'T'`, `58 = ':'`, `46 = '.'`; `%z` on `Utc` always
prints `+0000`. -/
def timestamp (t : DateTime) : Name :=
  formatYear t.year ++ [45] ++ padDigits 2 t.month ++ [45] ++ padDigits 2 t.day ++
    [84] ++ padDigits 2 t.hour ++ [58] ++ padDigits 2 t.minute ++ [58] ++
    padDigits 2 t.second ++ [46] ++ padDigits 3 t.millis ++ nameOf "+0000"

/-- The pointer file name: `format!("{}.{}", STATE_DEFAULT_STEM, STATE_EXTENSION)`,
i.e. `state.dat`. -/
def pointerName : Name := STATE_DEFAULT_STEM ++ dotByte ++ STATE_EXTENSION

/-- The timestamped state-file name
`format!("{}.{}.{}", STATE_DEFAULT_STEM, now.format(..), STATE_EXTENSION)`. -/
def stateFileName (now : DateTime) : Name :=
  STATE_DEFAULT_STEM ++ dotByte ++ timestamp now ++ dotByte ++ STATE_EXTENSION

/-! ## Byte-wise lexicographic order on names (the `OsString` order) -/

/-- Strict lexicographic order on byte sequences, as `OsString` comparison
performs on Unix (byte-wise). -/
def lexLt : Name → Name → Bool
  | [], [] => false
  | [], _ :: _ => true
  | _ :: _, [] => false
  | a :: as, b :: bs => if a < b then true else if b < a then false else lexLt as bs

/-- Does `s` start with the byte sequence `pre`?  Models `str::starts_with`. -/
def nameStarts : Name → Name → Bool
  | [], _ => true
  | _ :: _, [] => false
  | p :: ps, c :: cs => (p = c) && nameStarts ps cs

/-! ## Filesystem model -/

/-- A directory entry: a regular file with its byte content, or a symbolic
link to a target path (as created by `std::os::unix::fs::symlink`). -/
inductive Entry where
  | file (content : List Nat)
  | symlink (target : FPath)
deriving DecidableEq, Repr

/-- The filesystem: an association list from absolute paths to entries.
Key uniqueness is an invariant (`keysNodup`) assumed where needed. -/
abbrev FS := List (FPath × Entry)

/-- Look up the entry at a path. -/
def fsLookup : FS → FPath → Option Entry
  | [], _ => none
  | (q, e) :: rest, p => if q = p then some e else fsLookup rest p

/-- Remove every entry at a path (`fs::remove_file` on an existing path;
on a symlink it removes the link itself, not the target). -/
def fsRemoveAll (fs : FS) (p : FPath) : FS :=
  fs.filter (fun qe => if qe.1 = p then false else true)

/-- Create or overwrite the entry at a path. -/
def fsInsert (fs : FS) (p : FPath) (e : Entry) : FS :=
  (p, e) :: fsRemoveAll fs p

/-- The paths of a filesystem. -/
def fsKeys (fs : FS) : List FPath := fs.map (·.1)

/-- Key-uniqueness invariant of the association list. -/
def keysNodup (fs : FS) : Prop := (fsKeys fs).Nodup

instance (fs : FS) : Decidable (keysNodup fs) := by
  unfold keysNodup
  infer_instance

/-- Follow symlinks (with fuel) until a regular file is reached, returning
its content; `none` on a dangling link, a link cycle, or a missing path. -/
def readFileAux (fs : FS) : Nat → FPath → Option (List Nat)
  | 0, _ => none
  | fuel + 1, p =>
    match fsLookup fs p with
    | some (Entry.file c) => some c
    | some (Entry.symlink t) => readFileAux fs fuel t
    | none => none

/-- Open a path for reading, traversing symlinks (`OpenOptions::read`). -/
def readFile (fs : FS) (p : FPath) : Option (List Nat) :=
  readFileAux fs (fs.length + 1) p

/-- `Path::exists()`: traverses symlinks, so a dangling pointer "does not
exist" even though its directory entry is present. -/
def pathExists (fs : FS) (p : FPath) : Bool :=
  (readFile fs p).isSome

/-- The names of the entries of one directory, in directory order
(`fs::read_dir`). -/
def dirNames (fs : FS) (dir : DirPath) : List Name :=
  fs.filterMap (fun qe => if qe.1.1 = dir then some qe.1.2 else none)

/-- `DirEntry::file_type().is_file()`: true only for regular files
(`file_type` does not follow symlinks). -/
def isRegularFile (fs : FS) (p : FPath) : Bool :=
  match fsLookup fs p with
  | some (Entry.file _) => true
  | _ => false

/-! ## The state codec (spec-modelled) -/

/-- Modelled from the spec: `crate::BrokerState` is not under `src/`; the
spec describes it as an opaque, fully self-contained snapshot of the
broker's session/subscription data, exactly round-trippable through the
Codec.  It is modelled as an opaque byte blob. -/
structure BrokerState where
  blob : List Nat
deriving DecidableEq, Repr

/-- Modelled from the spec: `BrokerState::default()`, the structurally
default empty state returned on first run. -/
def defaultState : BrokerState := ⟨[]⟩

/-- Modelled from the spec: the Codec (`bincode` through a gzip stream)
encodes a state to a self-delimiting binary stream; modelled as a
length-tagged blob. -/
def encode (s : BrokerState) : List Nat := s.blob.length :: s.blob

/-- Modelled from the spec: Codec decoding, the exact inverse of `encode`
on well-formed streams, failing (`Deserialize`) on anything else. -/
def decode : List Nat → Option BrokerState
  | [] => none
  | n :: rest => if rest.length = n then some ⟨rest⟩ else none

/-! ## Error taxonomy (`persist.rs` `ErrorReason`) -/

/-- `pub enum ErrorReason` of `persist.rs`. -/
inductive ErrorReason where
  | FileOpen
  | FileUnlink
  | ReadDir
  | Symlink
  | SymlinkUnlink
  | Serialize
  | Deserialize
deriving DecidableEq, Repr

/-- `Result α ≅ Result<α, Error>`: the outcome of a fallible operation. -/
inductive Result (α : Type) where
  | ok (val : α)
  | error (err : ErrorReason)
deriving DecidableEq, Repr

/-! ## `FilePersistor::load` -/

/-- `FilePersistor::load`: build the pointer path; if it does not exist,
return the default state; otherwise open it (following the symlink),
gunzip/deserialize, propagating `FileOpen`/`Deserialize` failures. -/
def load (dir : DirPath) (fs : FS) : Result BrokerState :=
  let path : FPath := (dir, pointerName)
  if pathExists fs path then
    match readFile fs path with
    | some bytes =>
      match decode bytes with
      | some s => Result.ok s
      | none => Result.error ErrorReason.Deserialize
    | none => Result.error ErrorReason.FileOpen
  else
    Result.ok defaultState

/-! ## `FilePersistor::store` -/

/-- Observable filesystem actions of one `store` execution, in program
order; used to state temporal claims (the pointer is only redirected after
the write completed). -/
inductive Event where
  | fileCreated (p : FPath)
  | writeCompleted (p : FPath)
  | ptrRemoved
  | ptrCreated (p : FPath)
  | pruned (p : FPath)
deriving DecidableEq, Repr

/-- The pruning candidates: `read_dir(&dir)`, keep entries whose inspection
succeeds (`.ok()` filtering, modelled by `inspectFail`), that are regular
files, and whose name starts with `STATE_DEFAULT_STEM`. -/
def pruneCandidates (fs : FS) (dir : DirPath) (inspectFail : Name → Bool) : List Name :=
  (dirNames fs dir).filter
    (fun n => !(inspectFail n) && isRegularFile fs (dir, n) && nameStarts STATE_DEFAULT_STEM n)

/-- Insert into a descending-sorted list (descending by `lexLt`). -/
def insertDesc (x : Name) : List Name → List Name
  | [] => [x]
  | y :: ys => if lexLt y x then x :: y :: ys else y :: insertDesc x ys

/-- Sort names in descending byte-wise lexicographic order, the effect of
`entries.sort_unstable_by(|a, b| b.file_name().partial_cmp(&a.file_name()) ...)`. -/
def sortDesc : List Name → List Name
  | [] => []
  | x :: xs => insertDesc x (sortDesc xs)

/-- The pruning loop over the post-`skip(STATE_COUNT)` entries.  Each
deletion is `fs::remove_file(entry.file_name())`: the bare file name, which
the OS resolves against the process working directory `cwd`, not against
the persistence directory.  A missing path makes `remove_file` fail and the
`?` aborts the loop with `FileUnlink`. -/
def pruneLoop (cwd : DirPath) : FS → List Name → Result Unit × FS × List Event
  | fs, [] => (Result.ok (), fs, [])
  | fs, n :: rest =>
    if (fsLookup fs (cwd, n)).isSome then
      let r := pruneLoop cwd (fsRemoveAll fs (cwd, n)) rest
      (r.1, r.2.1, Event.pruned (cwd, n) :: r.2.2)
    else
      (Result.error ErrorReason.FileUnlink, fs, [])

/-- The timestamped path the new StateFile is written to. -/
def storePath (dir : DirPath) (now : DateTime) : FPath := (dir, stateFileName now)

/-- The pointer path `default_path`. -/
def pointerPath (dir : DirPath) : FPath := (dir, pointerName)

/-- The filesystem after `OpenOptions::create(true).write(true).open(&path)`:
the file is created empty if absent (an existing file is simply opened). -/
def storeOpened (dir : DirPath) (now : DateTime) (fs : FS) : FS :=
  if (fsLookup fs (storePath dir now)).isSome then fs
  else fsInsert fs (storePath dir now) (Entry.file [])

/-- The filesystem after the gzip/bincode stream write of the state
completed successfully. -/
def storeWritten (dir : DirPath) (now : DateTime) (state : BrokerState) (fs : FS) : FS :=
  fsInsert (storeOpened dir now fs) (storePath dir now) (Entry.file (encode state))

/-- Did `default_path.exists()` hold before the pointer swap?  (`exists()`
traverses symlinks, so a dangling pointer counts as absent.) -/
def ptrThere (dir : DirPath) (now : DateTime) (state : BrokerState) (fs : FS) : Bool :=
  pathExists (storeWritten dir now state fs) (pointerPath dir)

/-- The filesystem after `if default_path.exists() { fs::remove_file(&default_path)? }`. -/
def storeSwapped (dir : DirPath) (now : DateTime) (state : BrokerState) (fs : FS) : FS :=
  if ptrThere dir now state fs
  then fsRemoveAll (storeWritten dir now state fs) (pointerPath dir)
  else storeWritten dir now state fs

/-- The filesystem after `symlink(&path, &default_path)` succeeded. -/
def storeLinked (dir : DirPath) (now : DateTime) (state : BrokerState) (fs : FS) : FS :=
  fsInsert (storeSwapped dir now state fs) (pointerPath dir)
    (Entry.symlink (storePath dir now))

/-- The names deleted by retention: the descending-sorted candidates with
the first `STATE_COUNT` skipped. -/
def storeToDelete (dir : DirPath) (now : DateTime) (state : BrokerState) (fs : FS)
    (inspectFail : Name → Bool) : List Name :=
  (sortDesc (pruneCandidates (storeLinked dir now state fs) dir inspectFail)).drop STATE_COUNT

/-- `FilePersistor::store` on filesystem `fs`, with the persistence
directory `dir`, the process working directory `cwd`, the current UTC time
`now`, an injected serialization failure `serFail` (simulated encoding
failure), and injected per-entry inspection failures `inspectFail`.

Mirrors `persist.rs` lines 83–173:
1. compute `default_path` and the timestamped `path`;
2. `OpenOptions::create(true).write(true).open(&path)` — creates the file
   if absent (no truncation of an existing file is modelled; under the
   claims' hypotheses the name is fresh);
3. `bincode::serialize_into(GzEncoder::new(file), &state)` — on failure,
   `fs::remove_file(path)` then propagate `Serialize`;
4. on success, swap the symlink: remove `default_path` if `exists()`
   (symlink-traversing, so a dangling pointer is not removed and the
   subsequent `symlink` call fails with `EEXIST` → `Symlink` error);
5. prune: sort candidates descending, `skip(STATE_COUNT)`, delete each by
   bare file name (resolved in `cwd`). -/
def store (dir cwd : DirPath) (now : DateTime) (serFail : Bool)
    (inspectFail : Name → Bool) (state : BrokerState) (fs : FS) :
    Result Unit × FS × List Event :=
  let path := storePath dir now
  if serFail then
    (Result.error ErrorReason.Serialize, fsRemoveAll (storeOpened dir now fs) path,
      [Event.fileCreated path])
  else
    let ev3 := [Event.fileCreated path, Event.writeCompleted path] ++
      (if ptrThere dir now state fs then [Event.ptrRemoved] else [])
    if (fsLookup (storeSwapped dir now state fs) (pointerPath dir)).isSome then
      (Result.error ErrorReason.Symlink, storeSwapped dir now state fs, ev3)
    else
      let r := pruneLoop cwd (storeLinked dir now state fs)
        (storeToDelete dir now state fs inspectFail)
      (r.1, r.2.1, ev3 ++ [Event.ptrCreated path] ++ r.2.2)

/-- A sequence of `store` calls (each with its own wall-clock time and
state), stopping at the first failure; the snapshotter invokes them
strictly one after another. -/
def storeSeq (dir cwd : DirPath) : List (DateTime × BrokerState) → FS →
    Result Unit × FS
  | [], fs => (Result.ok (), fs)
  | (t, s) :: rest, fs =>
    match store dir cwd t false (fun _ => false) s fs with
    | (Result.ok _, fs', _) => storeSeq dir cwd rest fs'
    | (Result.error e, fs', _) => (Result.error e, fs')

/-- The names of the StateFiles present in `dir`: regular files whose name
starts with the stem, other than the pointer (which is a symlink when
created by `store`). -/
def stateFiles (fs : FS) (dir : DirPath) : List Name :=
  (dirNames fs dir).filter
    (fun n => isRegularFile fs (dir, n) && nameStarts STATE_DEFAULT_STEM n)

/-- The canonical directory contents after a run of successful stores: a
pointer naming the newest kept StateFile, followed by the kept StateFiles
(newest first) with their encoded contents. -/
def shapeFS (dir : DirPath) (kept : List (DateTime × BrokerState)) : FS :=
  match kept with
  | [] => []
  | (t, _) :: _ =>
    ((dir, pointerName), Entry.symlink (dir, stateFileName t)) ::
      kept.map (fun c => ((dir, stateFileName c.1), Entry.file (encode c.2)))

/-! ## Concrete sample inputs used by witnesses and counterexamples -/

/-- Sample wall-clock times five minutes apart. -/
def dtA : DateTime := ⟨2024, 1, 1, 0, 0, 0, 0⟩

def dtB : DateTime := ⟨2024, 1, 1, 0, 5, 0, 0⟩

def dtC : DateTime := ⟨2024, 1, 1, 0, 10, 0, 0⟩

def dtD : DateTime := ⟨2024, 1, 1, 0, 15, 0, 0⟩

/-- A time earlier than `dtA` (a clock that has jumped backwards). -/
def dtZ : DateTime := ⟨2023, 12, 31, 23, 55, 0, 0⟩

/-- A sample state directory (directory identity 0): three StateFiles from
`dtA`, `dtB`, `dtC` and a live pointer to the most recent one. -/
def fsSample : FS :=
  [((0, pointerName), Entry.symlink (0, stateFileName dtC)),
   ((0, stateFileName dtC), Entry.file [1, 3]),
   ((0, stateFileName dtB), Entry.file [1, 2]),
   ((0, stateFileName dtA), Entry.file [1, 1])]

/-- A sample directory pair exhibiting the pruning path bug: the state
directory (identity 0) holds two StateFiles and a live pointer, and the
process working directory (identity 1) happens to hold an unrelated file
bearing the same name as the oldest StateFile. -/
def fsC3 : FS :=
  [((0, pointerName), Entry.symlink (0, stateFileName dtB)),
   ((0, stateFileName dtB), Entry.file [1, 2]),
   ((0, stateFileName dtA), Entry.file [1, 1]),
   ((1, stateFileName dtA), Entry.file [7, 7])]

/-! ## Basic filesystem lemmas -/

theorem fsRemoveAll_cons (q1 : FPath) (e1 : Entry) (rest : FS) (p : FPath) :
    fsRemoveAll ((q1, e1) :: rest) p =
      if q1 = p then fsRemoveAll rest p else (q1, e1) :: fsRemoveAll rest p := by
  by_cases h : q1 = p <;> simp [fsRemoveAll, List.filter_cons, h]

theorem fsLookup_fsRemoveAll_self (fs : FS) (p : FPath) :
    fsLookup (fsRemoveAll fs p) p = none := by
  induction fs with
  | nil => rfl
  | cons qe rest ih =>
    obtain ⟨q1, e1⟩ := qe
    rw [fsRemoveAll_cons]
    by_cases h : q1 = p
    · rw [if_pos h]; exact ih
    · rw [if_neg h]
      simpa [fsLookup, h] using ih

theorem fsLookup_fsRemoveAll_ne (fs : FS) (p q : FPath) (h : q ≠ p) :
    fsLookup (fsRemoveAll fs p) q = fsLookup fs q := by
  induction fs with
  | nil => rfl
  | cons qe rest ih =>
    obtain ⟨q1, e1⟩ := qe
    rw [fsRemoveAll_cons]
    by_cases hq : q1 = p
    · have hne : q1 ≠ q := by rw [hq]; exact fun hc => h hc.symm
      rw [if_pos hq, ih]
      simp [fsLookup, hne]
    · rw [if_neg hq]
      by_cases hq2 : q1 = q <;> simp [fsLookup, hq2, ih]

theorem fsLookup_fsInsert_self (fs : FS) (p : FPath) (e : Entry) :
    fsLookup (fsInsert fs p e) p = some e := by
  simp [fsInsert, fsLookup]

theorem fsLookup_fsInsert_ne (fs : FS) (p q : FPath) (e : Entry) (h : q ≠ p) :
    fsLookup (fsInsert fs p e) q = fsLookup fs q := by
  have hpq : p ≠ q := fun hc => h hc.symm
  simp [fsInsert, fsLookup, hpq]
  exact fsLookup_fsRemoveAll_ne fs p q h

theorem pruneLoop_events (cwd : DirPath) (l : List Name) (fs : FS) :
    ∀ ev ∈ (pruneLoop cwd fs l).2.2, ∃ q, ev = Event.pruned q := by
  induction l generalizing fs with
  | nil => intro ev hev; simp [pruneLoop] at hev
  | cons n rest ih =>
    intro ev hev
    by_cases h : (fsLookup fs (cwd, n)).isSome
    · simp [pruneLoop, h] at hev
      rcases hev with hev | hev
      · exact ⟨(cwd, n), hev⟩
      · exact ih _ ev hev
    · simp [pruneLoop, h] at hev

theorem pruneLoop_lookup (cwd : DirPath) (l : List Name) (fs : FS) (p : FPath)
    (h : ∀ n ∈ l, (cwd, n) ≠ p) :
    fsLookup (pruneLoop cwd fs l).2.1 p = fsLookup fs p := by
  induction l generalizing fs with
  | nil => rfl
  | cons n rest ih =>
    by_cases hl : (fsLookup fs (cwd, n)).isSome
    · have hne : (cwd, n) ≠ p := h n (by simp)
      have := ih (fsRemoveAll fs (cwd, n)) (fun m hm => h m (by simp [hm]))
      simp [pruneLoop, hl, this]
      exact fsLookup_fsRemoveAll_ne fs (cwd, n) p (fun hc => hne hc.symm)
    · simp [pruneLoop, hl]

theorem stateFileName_ne_pointerName (t : DateTime) :
    stateFileName t ≠ pointerName := by
  intro h
  have hlen := congrArg List.length h
  simp [stateFileName, pointerName, STATE_DEFAULT_STEM, STATE_EXTENSION, dotByte,
    nameOf, timestamp, formatYear] at hlen
  omega

/-! ## C7: `load` on an absent pointer -/

/-- C7: `FilePersistor::load` on a directory where the pointer path does not
exist returns the structurally-default `BrokerState` and no error; and a
`load` failure can only be `FileOpen` or `Deserialize`, and only when the
pointer path exists. -/
theorem C7_load_default_when_absent (dir : DirPath) (fs : FS) :
    (pathExists fs (dir, pointerName) = false → load dir fs = Result.ok defaultState) ∧
    (∀ e, load dir fs = Result.error e →
      pathExists fs (dir, pointerName) = true ∧
        (e = ErrorReason.FileOpen ∨ e = ErrorReason.Deserialize)) := by
  constructor
  · intro h
    simp [load, h]
  · intro e h
    by_cases hp : pathExists fs (dir, pointerName)
    · refine ⟨hp, ?_⟩
      unfold load at h
      simp only [hp, if_true] at h
      cases hr : readFile fs (dir, pointerName) with
      | none => exact absurd hp (by simp [pathExists, hr])
      | some bytes =>
        cases hd : decode bytes with
        | none => simp [hr, hd] at h; right; exact h.symm
        | some s => simp [hr, hd] at h
    · simp [load, hp] at h

/-- Witness for C7 at a concrete input: the empty directory. -/
theorem C7_witness :
    pathExists [] (0, pointerName) = false ∧ load 0 [] = Result.ok defaultState :=
  ⟨by decide, (C7_load_default_when_absent 0 []).1 (by decide)⟩

/-! ## Store stage lemmas -/

theorem storePath_ne_pointerPath (dir : DirPath) (now : DateTime) :
    storePath dir now ≠ pointerPath dir := by
  intro h
  exact stateFileName_ne_pointerName now (congrArg Prod.snd h)

theorem fsLookup_storeOpened_ne (dir : DirPath) (now : DateTime) (fs : FS) (q : FPath)
    (h : q ≠ storePath dir now) :
    fsLookup (storeOpened dir now fs) q = fsLookup fs q := by
  unfold storeOpened
  by_cases hc : (fsLookup fs (storePath dir now)).isSome
  · simp [hc]
  · simp [hc, fsLookup_fsInsert_ne fs (storePath dir now) q (Entry.file []) h]

theorem fsLookup_storeWritten_ne (dir : DirPath) (now : DateTime) (state : BrokerState)
    (fs : FS) (q : FPath) (h : q ≠ storePath dir now) :
    fsLookup (storeWritten dir now state fs) q = fsLookup fs q := by
  unfold storeWritten
  rw [fsLookup_fsInsert_ne _ _ _ _ h, fsLookup_storeOpened_ne dir now fs q h]

theorem fsLookup_storeWritten_self (dir : DirPath) (now : DateTime) (state : BrokerState)
    (fs : FS) :
    fsLookup (storeWritten dir now state fs) (storePath dir now) =
      some (Entry.file (encode state)) :=
  fsLookup_fsInsert_self _ _ _

theorem ptr_absent_of_swap_missing (dir : DirPath) (now : DateTime) (state : BrokerState)
    (fs : FS) (hp : ptrThere dir now state fs = false)
    (hc : (fsLookup (storeSwapped dir now state fs) (pointerPath dir)).isSome = false) :
    (fsLookup fs (pointerPath dir)).isSome = false := by
  unfold storeSwapped at hc
  rw [hp] at hc
  simp only [Bool.false_eq_true, if_false] at hc
  rwa [fsLookup_storeWritten_ne dir now state fs (pointerPath dir)
    (fun he => storePath_ne_pointerPath dir now he.symm)] at hc

theorem store_eq_serFail (dir cwd : DirPath) (now : DateTime)
    (inspectFail : Name → Bool) (state : BrokerState) (fs : FS) :
    store dir cwd now true inspectFail state fs =
      (Result.error ErrorReason.Serialize,
       fsRemoveAll (storeOpened dir now fs) (storePath dir now),
       [Event.fileCreated (storePath dir now)]) := rfl

theorem store_eq_symlinkBlocked (dir cwd : DirPath) (now : DateTime)
    (inspectFail : Name → Bool) (state : BrokerState) (fs : FS)
    (hc : (fsLookup (storeSwapped dir now state fs) (pointerPath dir)).isSome = true) :
    store dir cwd now false inspectFail state fs =
      (Result.error ErrorReason.Symlink, storeSwapped dir now state fs,
       [Event.fileCreated (storePath dir now), Event.writeCompleted (storePath dir now)] ++
         (if ptrThere dir now state fs then [Event.ptrRemoved] else [])) := by
  simp [store, hc]

theorem store_eq_success (dir cwd : DirPath) (now : DateTime)
    (inspectFail : Name → Bool) (state : BrokerState) (fs : FS)
    (hc : (fsLookup (storeSwapped dir now state fs) (pointerPath dir)).isSome = false) :
    store dir cwd now false inspectFail state fs =
      ((pruneLoop cwd (storeLinked dir now state fs)
          (storeToDelete dir now state fs inspectFail)).1,
       (pruneLoop cwd (storeLinked dir now state fs)
          (storeToDelete dir now state fs inspectFail)).2.1,
       [Event.fileCreated (storePath dir now), Event.writeCompleted (storePath dir now)] ++
         (if ptrThere dir now state fs then [Event.ptrRemoved] else []) ++
         ([Event.ptrCreated (storePath dir now)] ++
          (pruneLoop cwd (storeLinked dir now state fs)
            (storeToDelete dir now state fs inspectFail)).2.2)) := by
  simp [store, hc]

theorem mem_of_idx {α : Type} (l : List α) (i : Nat) (a : α) (h : l[i]? = some a) :
    a ∈ l := by
  induction l generalizing i with
  | nil => simp at h
  | cons x xs ih =>
    rcases i with _ | i
    · simp at h
      simp [h]
    · simp at h
      exact List.mem_cons_of_mem _ (ih i h)

/-! ## C4: the pointer is only redirected after a completed write -/

/-- C4: in every execution of `store`, a pointer-creation event targets the
new StateFile and is preceded by the successful completion of that file's
write; and when the pointer entry was present at the start of the call, the
pointer-unlink event precedes the pointer-creation event (unlink-then-link
update). -/
theorem C4_pointer_update_after_write (dir cwd : DirPath) (now : DateTime)
    (serFail : Bool) (inspectFail : Name → Bool) (state : BrokerState) (fs : FS)
    (i : Nat) (p : FPath)
    (h : (store dir cwd now serFail inspectFail state fs).2.2[i]? =
      some (Event.ptrCreated p)) :
    p = storePath dir now ∧
    (∃ j, j < i ∧ (store dir cwd now serFail inspectFail state fs).2.2[j]? =
      some (Event.writeCompleted p)) ∧
    ((fsLookup fs (pointerPath dir)).isSome = true →
      ∃ k, k < i ∧ (store dir cwd now serFail inspectFail state fs).2.2[k]? =
        some Event.ptrRemoved) := by
  by_cases hs : serFail = true
  · subst hs
    rw [store_eq_serFail] at h
    rcases i with _ | i <;> simp at h
  · have hs0 : serFail = false := by simpa using hs
    subst hs0
    by_cases hc : (fsLookup (storeSwapped dir now state fs) (pointerPath dir)).isSome = true
    · rw [store_eq_symlinkBlocked dir cwd now inspectFail state fs hc] at h
      by_cases hp : ptrThere dir now state fs = true
      · rw [hp] at h
        simp only [if_true, List.cons_append, List.nil_append] at h
        rcases i with _ | _ | _ | i <;> simp at h
      · have hp0 : ptrThere dir now state fs = false := by simpa using hp
        rw [hp0] at h
        simp only [Bool.false_eq_true, if_false, List.append_nil] at h
        rcases i with _ | _ | i <;> simp at h
    · have hc0 : (fsLookup (storeSwapped dir now state fs) (pointerPath dir)).isSome
        = false := by simpa using hc
      rw [store_eq_success dir cwd now inspectFail state fs hc0] at h ⊢
      by_cases hp : ptrThere dir now state fs = true
      · rw [hp] at h ⊢
        simp only [if_true, List.cons_append, List.nil_append] at h ⊢
        rcases i with _ | _ | _ | _ | i
        · simp at h
        · simp at h
        · simp at h
        · simp at h
          refine ⟨h.symm, ⟨1, by omega, by simp [h]⟩, fun _ => ⟨2, by omega, by simp⟩⟩
        · exfalso
          simp only [List.getElem?_cons_succ] at h
          obtain ⟨q, hq⟩ := pruneLoop_events cwd _ _ _ (mem_of_idx _ i _ h)
          simp at hq
      · have hp0 : ptrThere dir now state fs = false := by simpa using hp
        rw [hp0] at h ⊢
        simp only [Bool.false_eq_true, if_false, List.append_nil, List.cons_append,
          List.nil_append] at h ⊢
        rcases i with _ | _ | _ | i
        · simp at h
        · simp at h
        · simp at h
          refine ⟨h.symm, ⟨1, by omega, by simp [h]⟩, fun hsome => ?_⟩
          exact absurd hsome (by simp [ptr_absent_of_swap_missing dir now state fs hp0 hc0])
        · exfalso
          simp only [List.getElem?_cons_succ] at h
          obtain ⟨q, hq⟩ := pruneLoop_events cwd _ _ _ (mem_of_idx _ i _ h)
          simp at hq

/-- Witness for C4 at a concrete input: a store into a directory holding a
state file and a live pointer; the trace is
`[fileCreated, writeCompleted, ptrRemoved, ptrCreated, ...]` and the theorem
applied at index 3 produces the preceding write and unlink events. -/
theorem C4_witness :
    (store 0 0 ⟨2024, 1, 1, 0, 5, 0, 0⟩ false (fun _ => false) ⟨[2]⟩
        [((0, pointerName), Entry.symlink (0, stateFileName ⟨2024, 1, 1, 0, 0, 0, 0⟩)),
         ((0, stateFileName ⟨2024, 1, 1, 0, 0, 0, 0⟩), Entry.file [1, 1])]).2.2[3]? =
      some (Event.ptrCreated (0, stateFileName ⟨2024, 1, 1, 0, 5, 0, 0⟩)) ∧
    ((0, stateFileName ⟨2024, 1, 1, 0, 5, 0, 0⟩) = storePath 0 ⟨2024, 1, 1, 0, 5, 0, 0⟩ ∧
     (∃ j, j < 3 ∧ (store 0 0 ⟨2024, 1, 1, 0, 5, 0, 0⟩ false (fun _ => false) ⟨[2]⟩
        [((0, pointerName), Entry.symlink (0, stateFileName ⟨2024, 1, 1, 0, 0, 0, 0⟩)),
         ((0, stateFileName ⟨2024, 1, 1, 0, 0, 0, 0⟩), Entry.file [1, 1])]).2.2[j]? =
        some (Event.writeCompleted (0, stateFileName ⟨2024, 1, 1, 0, 5, 0, 0⟩))) ∧
     ((fsLookup [((0, pointerName), Entry.symlink (0, stateFileName ⟨2024, 1, 1, 0, 0, 0, 0⟩)),
         ((0, stateFileName ⟨2024, 1, 1, 0, 0, 0, 0⟩), Entry.file [1, 1])]
          (pointerPath 0)).isSome = true →
      ∃ k, k < 3 ∧ (store 0 0 ⟨2024, 1, 1, 0, 5, 0, 0⟩ false (fun _ => false) ⟨[2]⟩
        [((0, pointerName), Entry.symlink (0, stateFileName ⟨2024, 1, 1, 0, 0, 0, 0⟩)),
         ((0, stateFileName ⟨2024, 1, 1, 0, 0, 0, 0⟩), Entry.file [1, 1])]).2.2[k]? =
        some Event.ptrRemoved)) :=
  ⟨by decide,
   C4_pointer_update_after_write 0 0 ⟨2024, 1, 1, 0, 5, 0, 0⟩ false (fun _ => false) ⟨[2]⟩
     [((0, pointerName), Entry.symlink (0, stateFileName ⟨2024, 1, 1, 0, 0, 0, 0⟩)),
      ((0, stateFileName ⟨2024, 1, 1, 0, 0, 0, 0⟩), Entry.file [1, 1])] 3
     (0, stateFileName ⟨2024, 1, 1, 0, 5, 0, 0⟩) (by decide)⟩

/-! ## Lexicographic-order lemmas -/

theorem lexLt_irrefl (a : Name) : lexLt a a = false := by
  induction a with
  | nil => rfl
  | cons x xs ih => simp [lexLt, ih]

theorem lexLt_cons_same (c : Nat) (as bs : Name) :
    lexLt (c :: as) (c :: bs) = lexLt as bs := by
  simp [lexLt]

theorem lexLt_append_same (xs as bs : Name) :
    lexLt (xs ++ as) (xs ++ bs) = lexLt as bs := by
  induction xs with
  | nil => rfl
  | cons x xs ih => simpa [lexLt_cons_same] using ih

theorem lexLt_append_split (as bs cs ds : Name) (h : as.length = bs.length) :
    lexLt (as ++ cs) (bs ++ ds) = true ↔
      (lexLt as bs = true ∨ (as = bs ∧ lexLt cs ds = true)) := by
  induction as generalizing bs with
  | nil =>
    cases bs with
    | nil => simp [lexLt]
    | cons b bs2 => simp at h
  | cons a as2 ih =>
    cases bs with
    | nil => simp at h
    | cons b bs2 =>
      simp only [List.length_cons, Nat.add_right_cancel_iff] at h
      by_cases hab : a < b
      · simp [lexLt, hab]
      · by_cases hba : b < a
        · have hne : ¬ a = b := by omega
          simp [lexLt, hab, hba, hne]
        · have heq : a = b := by omega
          subst heq
          simp only [List.cons_append, lexLt_cons_same, List.cons.injEq, true_and]
          exact ih bs2 h

theorem padDigits_length (k n : Nat) : (padDigits k n).length = k := by
  induction k generalizing n with
  | zero => rfl
  | succ k ih => simp [padDigits, ih]

theorem padDigits_inj (k a b : Nat) (ha : a < 10 ^ k) (hb : b < 10 ^ k) :
    padDigits k a = padDigits k b ↔ a = b := by
  induction k generalizing a b with
  | zero =>
    rw [pow_zero] at ha hb
    simp [padDigits]
    omega
  | succ k ih =>
    rw [pow_succ] at ha hb
    constructor
    · intro h
      simp only [padDigits] at h
      have hlen : (padDigits k (a / 10)).length = (padDigits k (b / 10)).length := by
        rw [padDigits_length, padDigits_length]
      obtain ⟨h1, h2⟩ := List.append_inj h hlen
      have hd : a / 10 = b / 10 := (ih _ _ (by omega) (by omega)).mp h1
      have hm : 48 + a % 10 = 48 + b % 10 := by
        simpa using h2
      omega
    · intro h
      subst h
      rfl

theorem padDigits_lt_iff (k a b : Nat) (ha : a < 10 ^ k) (hb : b < 10 ^ k) :
    lexLt (padDigits k a) (padDigits k b) = true ↔ a < b := by
  induction k generalizing a b with
  | zero =>
    rw [pow_zero] at ha hb
    simp [padDigits, lexLt]
    omega
  | succ k ih =>
    rw [pow_succ] at ha hb
    simp only [padDigits]
    rw [lexLt_append_split _ _ _ _ (by rw [padDigits_length, padDigits_length])]
    rw [ih _ _ (by omega) (by omega), padDigits_inj k _ _ (by omega) (by omega)]
    have hsing : lexLt [48 + a % 10] [48 + b % 10] = true ↔ a % 10 < b % 10 := by
      simp only [lexLt]
      by_cases h1 : 48 + a % 10 < 48 + b % 10
      · simp [h1]
        omega
      · by_cases h2 : 48 + b % 10 < 48 + a % 10
        · simp [h1, h2]
          omega
        · simp [h1, h2]
          omega
    rw [hsing]
    omega

theorem lexLt_field (k a b : Nat) (cs ds : Name) (ha : a < 10 ^ k) (hb : b < 10 ^ k) :
    lexLt (padDigits k a ++ cs) (padDigits k b ++ ds) = true ↔
      (a < b ∨ (a = b ∧ lexLt cs ds = true)) := by
  rw [lexLt_append_split _ _ _ _ (by rw [padDigits_length, padDigits_length])]
  rw [padDigits_lt_iff k a b ha hb, padDigits_inj k a b ha hb]

/-! ## C6: filename order versus chronological order -/

theorem timestamp_suffix_lt (t1 t2 : DateTime) (cs : Name)
    (h1 : t1.valid) (h2 : t2.valid) (hy1 : t1.year < 10000) (hy2 : t2.year < 10000) :
    lexLt (timestamp t1 ++ cs) (timestamp t2 ++ cs) = true ↔ DateTime.lt t1 t2 := by
  obtain ⟨hmo1, hmo1b, hd1, hd1b, hh1, hmi1, hs1, hms1⟩ := h1
  obtain ⟨hmo2, hmo2b, hd2, hd2b, hh2, hmi2, hs2, hms2⟩ := h2
  have p4 : (10 : Nat) ^ 4 = 10000 := by norm_num
  have p3 : (10 : Nat) ^ 3 = 1000 := by norm_num
  have p2 : (10 : Nat) ^ 2 = 100 := by norm_num
  unfold timestamp
  simp only [formatYear, if_pos hy1, if_pos hy2, List.append_assoc, List.singleton_append,
    List.cons_append, List.nil_append]
  rw [lexLt_field 4 _ _ _ _ (by rw [p4]; exact hy1) (by rw [p4]; exact hy2)]
  rw [lexLt_cons_same]
  rw [lexLt_field 2 _ _ _ _ (by rw [p2]; omega) (by rw [p2]; omega)]
  rw [lexLt_cons_same]
  rw [lexLt_field 2 _ _ _ _ (by rw [p2]; omega) (by rw [p2]; omega)]
  rw [lexLt_cons_same]
  rw [lexLt_field 2 _ _ _ _ (by rw [p2]; omega) (by rw [p2]; omega)]
  rw [lexLt_cons_same]
  rw [lexLt_field 2 _ _ _ _ (by rw [p2]; omega) (by rw [p2]; omega)]
  rw [lexLt_cons_same]
  rw [lexLt_field 2 _ _ _ _ (by rw [p2]; omega) (by rw [p2]; omega)]
  rw [lexLt_cons_same]
  rw [lexLt_field 3 _ _ _ _ (by rw [p3]; omega) (by rw [p3]; omega)]
  rw [lexLt_append_same, lexLt_irrefl]
  unfold DateTime.lt
  simp only [Bool.false_eq_true, and_false, or_false]

/-- C6 (amended): for valid UTC times whose years are below 10000, the
StateFile filename generated at `t1` is lexicographically smaller than the
one generated at `t2` exactly when `t1` is chronologically before `t2` at
millisecond precision. -/
theorem C6_filename_order_amended (t1 t2 : DateTime)
    (h1 : t1.valid) (h2 : t2.valid) (hy1 : t1.year < 10000) (hy2 : t2.year < 10000) :
    lexLt (stateFileName t1) (stateFileName t2) = true ↔ DateTime.lt t1 t2 := by
  unfold stateFileName
  simp only [List.append_assoc]
  rw [lexLt_append_same, lexLt_append_same]
  exact timestamp_suffix_lt t1 t2 _ h1 h2 hy1 hy2

/-- C6 counterexample: the claim quantifies over every pair of UTC times,
but chrono prints year 10000 with an explicit sign (`+10000`), and `'+'`
sorts before every digit: the file written at 10000-01-01T00:00:00.000
sorts lexicographically before the one written at 9999-12-31T23:59:59.999,
so `t1 < t2` does not imply `filename(t1) < filename(t2)`. -/
theorem C6_counterexample :
    DateTime.lt ⟨9999, 12, 31, 23, 59, 59, 999⟩ ⟨10000, 1, 1, 0, 0, 0, 0⟩ ∧
    DateTime.valid ⟨9999, 12, 31, 23, 59, 59, 999⟩ ∧
    DateTime.valid ⟨10000, 1, 1, 0, 0, 0, 0⟩ ∧
    lexLt (stateFileName ⟨9999, 12, 31, 23, 59, 59, 999⟩)
      (stateFileName ⟨10000, 1, 1, 0, 0, 0, 0⟩) = false ∧
    lexLt (stateFileName ⟨10000, 1, 1, 0, 0, 0, 0⟩)
      (stateFileName ⟨9999, 12, 31, 23, 59, 59, 999⟩) = true := by
  decide

/-- Witness for C6 at concrete times five minutes apart. -/
theorem C6_witness :
    (DateTime.valid ⟨2024, 1, 1, 0, 0, 0, 0⟩ ∧ DateTime.valid ⟨2024, 1, 1, 0, 5, 0, 0⟩ ∧
     (2024 : Nat) < 10000) ∧
    (lexLt (stateFileName ⟨2024, 1, 1, 0, 0, 0, 0⟩)
        (stateFileName ⟨2024, 1, 1, 0, 5, 0, 0⟩) = true ↔
      DateTime.lt ⟨2024, 1, 1, 0, 0, 0, 0⟩ ⟨2024, 1, 1, 0, 5, 0, 0⟩) :=
  ⟨⟨by decide, by decide, by decide⟩,
   C6_filename_order_amended ⟨2024, 1, 1, 0, 0, 0, 0⟩ ⟨2024, 1, 1, 0, 5, 0, 0⟩
     (by decide) (by decide) (by decide) (by decide)⟩

/-! ## Pruning-candidate lemmas -/

theorem mem_insertDesc (x y : Name) (l : List Name) :
    y ∈ insertDesc x l ↔ y = x ∨ y ∈ l := by
  induction l with
  | nil => simp [insertDesc]
  | cons z zs ih =>
    by_cases h : lexLt z x
    · simp [insertDesc, h, ih]
    · simp [insertDesc, h, ih]
      tauto

theorem mem_sortDesc (x : Name) (l : List Name) : x ∈ sortDesc l ↔ x ∈ l := by
  induction l with
  | nil => simp [sortDesc]
  | cons y ys ih => simp [sortDesc, mem_insertDesc, ih]

theorem pruneCandidates_not_inspectFail (fs : FS) (dir : DirPath)
    (inspectFail : Name → Bool) (n : Name) (h : n ∈ pruneCandidates fs dir inspectFail) :
    inspectFail n = false := by
  have hp := (List.mem_filter.mp h).2
  by_cases hF : inspectFail n = true
  · rw [hF] at hp
    simp at hp
  · simpa using hF

theorem pruneCandidates_isRegular (fs : FS) (dir : DirPath)
    (inspectFail : Name → Bool) (n : Name) (h : n ∈ pruneCandidates fs dir inspectFail) :
    isRegularFile fs (dir, n) = true := by
  have hp := (List.mem_filter.mp h).2
  by_cases hR : isRegularFile fs (dir, n) = true
  · exact hR
  · rw [Bool.not_eq_true] at hR
    rw [hR] at hp
    simp at hp

theorem pruneLoop_pruned_mem (cwd : DirPath) (l : List Name) (fs : FS) (p : FPath)
    (h : Event.pruned p ∈ (pruneLoop cwd fs l).2.2) : p.1 = cwd ∧ p.2 ∈ l := by
  induction l generalizing fs with
  | nil => simp [pruneLoop] at h
  | cons n rest ih =>
    by_cases hl : (fsLookup fs (cwd, n)).isSome
    · simp [pruneLoop, hl] at h
      rcases h with h | h
      · rw [h]
        exact ⟨rfl, by simp⟩
      · obtain ⟨h1, h2⟩ := ih _ h
        exact ⟨h1, by simp [h2]⟩
    · simp [pruneLoop, hl] at h

theorem store_pruned_mem (dir cwd : DirPath) (now : DateTime) (serFail : Bool)
    (inspectFail : Name → Bool) (state : BrokerState) (fs : FS) (p : FPath)
    (h : Event.pruned p ∈ (store dir cwd now serFail inspectFail state fs).2.2) :
    p.1 = cwd ∧ p.2 ∈ pruneCandidates (storeLinked dir now state fs) dir inspectFail := by
  have hmain : p.1 = cwd ∧ p.2 ∈ storeToDelete dir now state fs inspectFail := by
    by_cases hs : serFail = true
    · subst hs
      rw [store_eq_serFail] at h
      simp at h
    · have hs0 : serFail = false := by simpa using hs
      subst hs0
      by_cases hc : (fsLookup (storeSwapped dir now state fs) (pointerPath dir)).isSome = true
      · rw [store_eq_symlinkBlocked dir cwd now inspectFail state fs hc] at h
        by_cases hp : ptrThere dir now state fs = true <;> simp [hp] at h
      · have hc0 : (fsLookup (storeSwapped dir now state fs) (pointerPath dir)).isSome
          = false := by simpa using hc
        rw [store_eq_success dir cwd now inspectFail state fs hc0] at h
        by_cases hp : ptrThere dir now state fs = true
        · simp [hp] at h
          exact pruneLoop_pruned_mem cwd _ _ p h
        · simp [hp] at h
          exact pruneLoop_pruned_mem cwd _ _ p h
  refine ⟨hmain.1, ?_⟩
  have := hmain.2
  unfold storeToDelete at this
  exact (mem_sortDesc _ _).mp (List.mem_of_mem_drop this)

/-! ## C8: entries failing inspection are skipped, not fatal -/

/-- C8: a directory entry whose inspection fails is skipped by retention
pruning rather than failing the store: the candidate list under injected
inspection failures is exactly the failure-free candidate list with the
failing names filtered out, and no pruning deletion ever targets a name
whose inspection failed. -/
theorem C8_inspection_failures_skipped (dir cwd : DirPath) (now : DateTime)
    (inspectFail : Name → Bool) (state : BrokerState) (fs : FS) :
    pruneCandidates fs dir inspectFail =
      (pruneCandidates fs dir (fun _ => false)).filter (fun n => !(inspectFail n)) ∧
    (∀ n p, inspectFail n = true →
      Event.pruned p ∈ (store dir cwd now false inspectFail state fs).2.2 →
      p.2 ≠ n) := by
  constructor
  · unfold pruneCandidates
    rw [List.filter_filter]
    congr 1
    funext n
    cases inspectFail n <;> cases isRegularFile fs (dir, n) <;>
      cases nameStarts STATE_DEFAULT_STEM n <;> rfl
  · intro n p hF hmem hpn
    have hcand := (store_pruned_mem dir cwd now false inspectFail state fs p hmem).2
    have := pruneCandidates_not_inspectFail _ _ _ _ hcand
    rw [hpn, hF] at this
    exact Bool.true_eq_false ▸ this

/-! ## C10: the pointer entry is never a pruning victim -/

/-- C10: retention pruning never deletes the pointer entry: pruning
candidates are restricted to regular files and the pointer is a symlink at
pruning time, so no pruned name is the pointer name; moreover a successful
store leaves the pointer entry as a symlink to the new StateFile. -/
theorem C10_pointer_never_pruned (dir cwd : DirPath) (now : DateTime) (serFail : Bool)
    (inspectFail : Name → Bool) (state : BrokerState) (fs : FS) :
    (∀ p, Event.pruned p ∈ (store dir cwd now serFail inspectFail state fs).2.2 →
      p.2 ≠ pointerName) ∧
    ((store dir cwd now serFail inspectFail state fs).1 = Result.ok () →
      fsLookup (store dir cwd now serFail inspectFail state fs).2.1 (pointerPath dir) =
        some (Entry.symlink (storePath dir now))) := by
  have hreg : ∀ p, Event.pruned p ∈ (store dir cwd now serFail inspectFail state fs).2.2 →
      p.2 ≠ pointerName := by
    intro p hmem hpn
    have hcand := (store_pruned_mem dir cwd now serFail inspectFail state fs p hmem).2
    have hr := pruneCandidates_isRegular _ _ _ _ hcand
    rw [hpn] at hr
    unfold isRegularFile at hr
    rw [show ((dir, pointerName) : FPath) = pointerPath dir from rfl] at hr
    unfold storeLinked at hr
    rw [fsLookup_fsInsert_self] at hr
    simp at hr
  refine ⟨hreg, ?_⟩
  intro hok
  by_cases hs : serFail = true
  · subst hs
    rw [store_eq_serFail] at hok
    simp at hok
  · have hs0 : serFail = false := by simpa using hs
    subst hs0
    by_cases hc : (fsLookup (storeSwapped dir now state fs) (pointerPath dir)).isSome = true
    · rw [store_eq_symlinkBlocked dir cwd now inspectFail state fs hc] at hok
      simp at hok
    · have hc0 : (fsLookup (storeSwapped dir now state fs) (pointerPath dir)).isSome
        = false := by simpa using hc
      rw [store_eq_success dir cwd now inspectFail state fs hc0]
      have hdel : ∀ n ∈ storeToDelete dir now state fs inspectFail,
          (cwd, n) ≠ pointerPath dir := by
        intro n hn he
        have hcand : n ∈ pruneCandidates (storeLinked dir now state fs) dir inspectFail := by
          unfold storeToDelete at hn
          exact (mem_sortDesc _ _).mp (List.mem_of_mem_drop hn)
        have hr := pruneCandidates_isRegular _ _ _ _ hcand
        have hn2 : n = pointerName := congrArg Prod.snd he
        rw [hn2] at hr
        unfold isRegularFile at hr
        rw [show ((dir, pointerName) : FPath) = pointerPath dir from rfl] at hr
        unfold storeLinked at hr
        rw [fsLookup_fsInsert_self] at hr
        simp at hr
      rw [pruneLoop_lookup cwd _ _ _ hdel]
      unfold storeLinked
      exact fsLookup_fsInsert_self _ _ _

/-- Witness for C8: storing at `dtD` into `fsSample` while the inspection
of `dtA`'s file fails; pruning deletes `dtB`'s file (the fourth-newest) and
the failing entry is skipped, not deleted. -/
theorem C8_witness :
    (fun n => decide (n = stateFileName dtA)) (stateFileName dtA) = true ∧
    Event.pruned (0, stateFileName dtB) ∈
      (store 0 0 dtD false (fun n => decide (n = stateFileName dtA)) ⟨[9]⟩
        fsSample).2.2 ∧
    ((0, stateFileName dtB) : FPath).2 ≠ stateFileName dtA :=
  ⟨by decide, by decide,
   (C8_inspection_failures_skipped 0 0 dtD (fun n => decide (n = stateFileName dtA))
       ⟨[9]⟩ fsSample).2 (stateFileName dtA) (0, stateFileName dtB)
     (by decide) (by decide)⟩

/-- Witness for C10: a successful store at `dtD` into `fsSample` leaves the
pointer entry as a symlink to the new StateFile (it was not pruned). -/
theorem C10_witness :
    (store 0 0 dtD false (fun _ => false) ⟨[9]⟩ fsSample).1 = Result.ok () ∧
    fsLookup (store 0 0 dtD false (fun _ => false) ⟨[9]⟩ fsSample).2.1
        (pointerPath 0) = some (Entry.symlink (storePath 0 dtD)) :=
  ⟨by decide,
   (C10_pointer_never_pruned 0 0 dtD false (fun _ => false) ⟨[9]⟩ fsSample).2 (by decide)⟩

/-! ## Auxiliary removal lemmas -/

theorem fsRemoveAll_idem (fs : FS) (p : FPath) :
    fsRemoveAll (fsRemoveAll fs p) p = fsRemoveAll fs p := by
  unfold fsRemoveAll
  rw [List.filter_filter]
  congr 1
  funext qe
  by_cases h : qe.1 = p <;> simp [h]

theorem fsRemoveAll_absent (fs : FS) (p : FPath) (h : fsLookup fs p = none) :
    fsRemoveAll fs p = fs := by
  induction fs with
  | nil => rfl
  | cons qe rest ih =>
    obtain ⟨q1, e1⟩ := qe
    have h2 : (if q1 = p then some e1 else fsLookup rest p) = none := h
    by_cases hq : q1 = p
    · rw [if_pos hq] at h2
      exact absurd h2 (by simp)
    · rw [if_neg hq] at h2
      rw [fsRemoveAll_cons, if_neg hq, ih h2]

/-! ## C2: failure atomicity of `store` -/

/-- C2 (amended): if encoding (serialization) fails during the write step
— and the fresh timestamped name does not collide with an existing entry —
then `store` deletes the partially written file, leaves the directory
exactly as it was before the call (the pointer and all prior StateFiles
untouched), and propagates the `Serialize` failure. -/
theorem C2_serialize_failure_amended (dir cwd : DirPath) (now : DateTime)
    (inspectFail : Name → Bool) (state : BrokerState) (fs : FS)
    (hfresh : fsLookup fs (storePath dir now) = none) :
    (store dir cwd now true inspectFail state fs).1 =
      Result.error ErrorReason.Serialize ∧
    (store dir cwd now true inspectFail state fs).2.1 = fs := by
  rw [store_eq_serFail]
  refine ⟨rfl, ?_⟩
  unfold storeOpened
  rw [hfresh]
  simp only [Option.isSome_none, Bool.false_eq_true, if_false]
  unfold fsInsert
  rw [fsRemoveAll_cons, if_pos rfl, fsRemoveAll_idem, fsRemoveAll_absent fs _ hfresh]

/-- Witness for C2 (amended) at `fsSample`: the simulated encoding failure
leaves the directory untouched. -/
theorem C2_witness :
    fsLookup fsSample (storePath 0 dtD) = none ∧
    ((store 0 0 dtD true (fun _ => false) ⟨[9]⟩ fsSample).1 =
      Result.error ErrorReason.Serialize ∧
     (store 0 0 dtD true (fun _ => false) ⟨[9]⟩ fsSample).2.1 = fsSample) :=
  ⟨by decide,
   C2_serialize_failure_amended 0 0 dtD (fun _ => false) ⟨[9]⟩ fsSample (by decide)⟩

/-- C2 counterexample: the claim says *any* encoding/IO failure during
`store` leaves the directory unchanged apart from the removed partial file.
But when the failure strikes *after* the write (here: the pruning unlink
fails, because the bare filename is resolved in a working directory other
than the state directory), the fully-written new StateFile remains on disk
and the pointer has already been redirected to it — the directory differs
from its pre-call contents well beyond a removed partial file. -/
theorem C2_counterexample :
    (store 0 1 dtD false (fun _ => false) ⟨[9]⟩ fsSample).1 =
      Result.error ErrorReason.FileUnlink ∧
    fsLookup (store 0 1 dtD false (fun _ => false) ⟨[9]⟩ fsSample).2.1
        (0, stateFileName dtD) = some (Entry.file (encode ⟨[9]⟩)) ∧
    fsLookup (store 0 1 dtD false (fun _ => false) ⟨[9]⟩ fsSample).2.1 (0, pointerName) =
      some (Entry.symlink (0, stateFileName dtD)) ∧
    fsLookup fsSample (0, pointerName) = some (Entry.symlink (0, stateFileName dtC)) := by
  decide

/-! ## C3: pruning deletes by bare filename, resolved in the working directory -/

/-- C3 (code bug): `fs::remove_file(entry.file_name())` passes the bare file
name, which the OS resolves against the process working directory, not the
persistence directory.  Concretely, storing into state directory `0` while
the working directory is `1`: the store "succeeds", the pruning victim
inside the state directory survives, and an unrelated same-named file in
the working directory is deleted instead. -/
theorem C3_cwd_scoped_deletion_bug :
    (store 0 1 dtC false (fun _ => false) ⟨[9]⟩ fsC3).1 = Result.ok () ∧
    Event.pruned (1, stateFileName dtA) ∈
      (store 0 1 dtC false (fun _ => false) ⟨[9]⟩ fsC3).2.2 ∧
    fsLookup (store 0 1 dtC false (fun _ => false) ⟨[9]⟩ fsC3).2.1
        (1, stateFileName dtA) = none ∧
    fsLookup (store 0 1 dtC false (fun _ => false) ⟨[9]⟩ fsC3).2.1
        (0, stateFileName dtA) = some (Entry.file [1, 1]) := by
  decide

/-! ## Further order lemmas -/

theorem lexLt_asymm (a b : Name) (h : lexLt a b = true) : lexLt b a = false := by
  induction a generalizing b with
  | nil =>
    cases b with
    | nil => simp [lexLt] at h
    | cons y ys => simp [lexLt]
  | cons x xs ih =>
    cases b with
    | nil => simp [lexLt] at h
    | cons y ys =>
      simp only [lexLt] at h ⊢
      by_cases h1 : x < y
      · have h2 : ¬ y < x := by omega
        simp [h1, h2]
      · by_cases h2 : y < x
        · simp [h1, h2] at h
        · simp [h1, h2] at h ⊢
          exact ih ys h

theorem lexLt_trans (a b c : Name) (h1 : lexLt a b = true) (h2 : lexLt b c = true) :
    lexLt a c = true := by
  induction a generalizing b c with
  | nil =>
    cases b with
    | nil => simp [lexLt] at h1
    | cons y ys =>
      cases c with
      | nil => simp [lexLt] at h2
      | cons z zs => simp [lexLt]
  | cons x xs ih =>
    cases b with
    | nil => simp [lexLt] at h1
    | cons y ys =>
      cases c with
      | nil => simp [lexLt] at h2
      | cons z zs =>
        simp only [lexLt] at h1 h2 ⊢
        by_cases hxy : x < y
        · by_cases hyz : y < z
          · have hxz : x < z := by omega
            simp [hxz]
          · by_cases hzy : z < y
            · simp [hyz, hzy] at h2
            · have hyz2 : y = z := by omega
              subst hyz2
              simp [hxy]
        · by_cases hyx : y < x
          · simp [hxy, hyx] at h1
          · have hxy2 : x = y := by omega
            subst hxy2
            simp [Nat.lt_irrefl] at h1
            by_cases hxz : x < z
            · simp [hxz]
            · by_cases hzx : z < x
              · simp [hxz, hzx] at h2
              · have hxz2 : x = z := by omega
                subst hxz2
                simp [Nat.lt_irrefl] at h2 ⊢
                exact ih ys zs h1 h2

/-! ## Sorting lemmas -/

theorem insertDesc_perm (x : Name) (l : List Name) :
    List.Perm (insertDesc x l) (x :: l) := by
  induction l with
  | nil => exact List.Perm.refl _
  | cons z zs ih =>
    by_cases h : lexLt z x
    · simp [insertDesc, h]
    · simp only [insertDesc, h, Bool.false_eq_true, if_false]
      exact (List.Perm.cons z ih).trans (List.Perm.swap x z zs)

theorem sortDesc_perm (l : List Name) : List.Perm (sortDesc l) l := by
  induction l with
  | nil => exact List.Perm.refl _
  | cons y ys ih =>
    simp only [sortDesc]
    exact (insertDesc_perm y (sortDesc ys)).trans (List.Perm.cons y ih)

theorem sortDesc_nodup (l : List Name) (h : l.Nodup) : (sortDesc l).Nodup :=
  ((sortDesc_perm l).nodup_iff).mpr h

theorem insertDesc_pairwise (x : Name) (l : List Name)
    (h : l.Pairwise (fun a b => lexLt a b = false)) :
    (insertDesc x l).Pairwise (fun a b => lexLt a b = false) := by
  induction l with
  | nil => simp [insertDesc]
  | cons z zs ih =>
    obtain ⟨hz, hzs⟩ := List.pairwise_cons.mp h
    by_cases hlt : lexLt z x = true
    · simp only [insertDesc, hlt, if_true]
      refine List.pairwise_cons.mpr ⟨?_, h⟩
      intro b hb
      rcases List.mem_cons.mp hb with hbz | hb2
      · rw [hbz]
        exact lexLt_asymm z x hlt
      · cases hxb : lexLt x b with
        | false => rfl
        | true => exact absurd (hz b hb2) (by rw [lexLt_trans z x b hlt hxb]; simp)
    · have hlt2 : lexLt z x = false := by simpa using hlt
      simp only [insertDesc, hlt2, Bool.false_eq_true, if_false]
      refine List.pairwise_cons.mpr ⟨?_, ih hzs⟩
      intro b hb
      rcases (mem_insertDesc x b zs).mp hb with hbx | hb2
      · rw [hbx]
        exact hlt2
      · exact hz b hb2

theorem sortDesc_sorted (l : List Name) :
    (sortDesc l).Pairwise (fun a b => lexLt a b = false) := by
  induction l with
  | nil => simp [sortDesc]
  | cons y ys ih =>
    simpa only [sortDesc] using insertDesc_pairwise y (sortDesc ys) ih

/-- A name strictly greater than every other member of a duplicate-free
list is among the first `k ≥ 1` elements of the descending sort: it never
lands in the dropped (pruned) suffix. -/
theorem max_not_mem_sortDesc_drop (l : List Name) (m : Name) (hnd : l.Nodup)
    (hmax : ∀ n ∈ l, n ≠ m → lexLt n m = true) (k : Nat) (hk : 1 ≤ k) :
    m ∉ (sortDesc l).drop k := by
  intro hmem
  have hsorted := sortDesc_sorted l
  have hnd2 := sortDesc_nodup l hnd
  cases hls : sortDesc l with
  | nil => rw [hls] at hmem; simp at hmem
  | cons h t =>
    rw [hls] at hmem hsorted hnd2
    have hmt : m ∈ t := by
      obtain ⟨k2, rfl⟩ : ∃ k2, k = k2 + 1 := ⟨k - 1, by omega⟩
      simp only [List.drop_succ_cons] at hmem
      exact List.mem_of_mem_drop hmem
    by_cases hhm : h = m
    · subst hhm
      exact (List.nodup_cons.mp hnd2).1 hmt
    · have hhl : h ∈ l := (mem_sortDesc h l).mp (by rw [hls]; simp)
      have h1 : lexLt h m = true := hmax h hhl hhm
      have h2 : lexLt h m = false := (List.pairwise_cons.mp hsorted).1 m hmt
      rw [h1] at h2
      exact absurd h2 (by simp)

/-! ## Key-uniqueness plumbing -/

theorem fsLookup_eq_none_iff (fs : FS) (p : FPath) :
    fsLookup fs p = none ↔ p ∉ fsKeys fs := by
  induction fs with
  | nil => simp [fsLookup, fsKeys]
  | cons qe rest ih =>
    obtain ⟨q1, e1⟩ := qe
    by_cases h : q1 = p
    · subst h
      simp [fsLookup, fsKeys]
    · have h2 : ¬ p = q1 := fun hc => h hc.symm
      simp [fsLookup, fsKeys, h, h2, ih]

theorem keysNodup_fsRemoveAll (fs : FS) (p : FPath) (h : keysNodup fs) :
    keysNodup (fsRemoveAll fs p) := by
  unfold keysNodup fsKeys fsRemoveAll at *
  exact ((List.filter_sublist fs).map Prod.fst).nodup h

theorem keysNodup_fsInsert (fs : FS) (p : FPath) (e : Entry) (h : keysNodup fs) :
    keysNodup (fsInsert fs p e) := by
  unfold fsInsert
  have h1 : keysNodup (fsRemoveAll fs p) := keysNodup_fsRemoveAll fs p h
  have h2 : p ∉ fsKeys (fsRemoveAll fs p) :=
    (fsLookup_eq_none_iff _ _).mp (fsLookup_fsRemoveAll_self fs p)
  unfold keysNodup fsKeys at *
  simpa using List.nodup_cons.mpr ⟨h2, h1⟩

theorem keysNodup_storeLinked (dir : DirPath) (now : DateTime) (state : BrokerState)
    (fs : FS) (h : keysNodup fs) : keysNodup (storeLinked dir now state fs) := by
  have h1 : keysNodup (storeOpened dir now fs) := by
    unfold storeOpened
    by_cases hc : (fsLookup fs (storePath dir now)).isSome
    · simpa [hc] using h
    · simp only [hc, Bool.false_eq_true, if_false]
      exact keysNodup_fsInsert fs _ _ h
  have h2 : keysNodup (storeWritten dir now state fs) :=
    keysNodup_fsInsert _ _ _ h1
  have h3 : keysNodup (storeSwapped dir now state fs) := by
    unfold storeSwapped
    by_cases hp : ptrThere dir now state fs
    · simp only [hp, if_true]
      exact keysNodup_fsRemoveAll _ _ h2
    · simpa [hp] using h2
  exact keysNodup_fsInsert _ _ _ h3

theorem mem_dirNames (fs : FS) (dir : DirPath) (n : Name) :
    n ∈ dirNames fs dir ↔ (dir, n) ∈ fsKeys fs := by
  induction fs with
  | nil => simp [dirNames, fsKeys]
  | cons qe rest ih =>
    obtain ⟨⟨d1, n1⟩, e1⟩ := qe
    by_cases hd : d1 = dir
    · subst hd
      simp [dirNames, fsKeys, List.filterMap_cons, ih, Prod.ext_iff]
    · have hd2 : ∀ hn : n1 = n, ¬ (dir = d1) := fun _ hc => hd hc.symm
      simp [dirNames, fsKeys, List.filterMap_cons, hd, ih, Prod.ext_iff]
      intro hdd
      exact absurd hdd.symm hd

theorem dirNames_nodup (fs : FS) (dir : DirPath) (h : keysNodup fs) :
    (dirNames fs dir).Nodup := by
  induction fs with
  | nil => simp [dirNames]
  | cons qe rest ih =>
    obtain ⟨⟨d1, n1⟩, e1⟩ := qe
    have h2 : ((d1, n1) ∉ fsKeys rest) ∧ keysNodup rest := List.nodup_cons.mp h
    by_cases hd : d1 = dir
    · subst hd
      simp only [dirNames, List.filterMap_cons, if_pos rfl]
      refine List.nodup_cons.mpr ⟨?_, ih h2.2⟩
      intro hmem
      exact h2.1 ((mem_dirNames rest d1 n1).mp hmem)
    · simpa only [dirNames, List.filterMap_cons, if_neg hd] using ih h2.2

theorem pruneCandidates_nodup (fs : FS) (dir : DirPath) (inspectFail : Name → Bool)
    (h : keysNodup fs) : (pruneCandidates fs dir inspectFail).Nodup :=
  (dirNames_nodup fs dir h).filter _

/-! ## Round-trip helper lemmas -/

theorem decode_encode (s : BrokerState) : decode (encode s) = some s := by
  simp [encode, decode]

theorem readFile_symlink_file (fs : FS) (p q : FPath) (c : List Nat)
    (hp : fsLookup fs p = some (Entry.symlink q))
    (hq : fsLookup fs q = some (Entry.file c)) : readFile fs p = some c := by
  unfold readFile
  obtain ⟨k, hk⟩ : ∃ k, fs.length + 1 = k + 2 := by
    cases fs with
    | nil => simp [fsLookup] at hp
    | cons x l => exact ⟨l.length, by simp⟩
  rw [hk]
  simp [readFileAux, hp, hq]

theorem storeToDelete_sub_candidates (dir : DirPath) (now : DateTime)
    (state : BrokerState) (fs : FS) (inspectFail : Name → Bool) (n : Name)
    (h : n ∈ storeToDelete dir now state fs inspectFail) :
    n ∈ pruneCandidates (storeLinked dir now state fs) dir inspectFail := by
  unfold storeToDelete at h
  exact (mem_sortDesc _ _).mp (List.mem_of_mem_drop h)

theorem storeToDelete_ne_pointer (dir cwd : DirPath) (now : DateTime)
    (state : BrokerState) (fs : FS) (inspectFail : Name → Bool) :
    ∀ n ∈ storeToDelete dir now state fs inspectFail, (cwd, n) ≠ pointerPath dir := by
  intro n hn he
  have hcand := storeToDelete_sub_candidates dir now state fs inspectFail n hn
  have hr := pruneCandidates_isRegular _ _ _ _ hcand
  have hn2 : n = pointerName := congrArg Prod.snd he
  rw [hn2] at hr
  unfold isRegularFile at hr
  rw [show ((dir, pointerName) : FPath) = pointerPath dir from rfl] at hr
  unfold storeLinked at hr
  rw [fsLookup_fsInsert_self] at hr
  simp at hr

/-- Under a fresh-name-maximality hypothesis the new StateFile is kept by
retention: it is among the first `STATE_COUNT` sorted candidates. -/
theorem newName_not_deleted (dir : DirPath) (now : DateTime) (state : BrokerState)
    (fs : FS) (inspectFail : Name → Bool) (hnd : keysNodup fs)
    (hmax : ∀ n ∈ pruneCandidates (storeLinked dir now state fs) dir inspectFail,
      n ≠ stateFileName now → lexLt n (stateFileName now) = true) :
    stateFileName now ∉ storeToDelete dir now state fs inspectFail := by
  unfold storeToDelete
  exact max_not_mem_sortDesc_drop _ _
    (pruneCandidates_nodup _ _ _ (keysNodup_storeLinked dir now state fs hnd))
    hmax STATE_COUNT (by norm_num [STATE_COUNT])

/-! ## C1: store/load round trip -/

/-- C1 counterexample: `store` can succeed yet a subsequent `load` return
the default state rather than the stored one.  With the wall clock jumped
backwards (`dtZ` earlier than the three StateFiles already on disk), the
new file's name sorts below the retention window, so the store itself
prunes the file it just wrote; the pointer dangles and `load` falls back to
the default state. -/
theorem C1_counterexample :
    (store 0 0 dtZ false (fun _ => false) ⟨[9]⟩ fsSample).1 = Result.ok () ∧
    load 0 (store 0 0 dtZ false (fun _ => false) ⟨[9]⟩ fsSample).2.1 =
      Result.ok defaultState ∧
    (⟨[9]⟩ : BrokerState) ≠ defaultState := by
  decide

/-- C1 (amended): if `store` succeeds and the new StateFile's name is
lexicographically greater than every other pruning-candidate name in the
state directory (guaranteed by a monotone clock), then a fresh `load` on
the resulting directory returns exactly the stored state. -/
theorem C1_roundtrip_amended (dir cwd : DirPath) (now : DateTime) (serFail : Bool)
    (inspectFail : Name → Bool) (state : BrokerState) (fs : FS)
    (hnd : keysNodup fs)
    (hmax : ∀ n ∈ pruneCandidates (storeLinked dir now state fs) dir inspectFail,
      n ≠ stateFileName now → lexLt n (stateFileName now) = true)
    (hok : (store dir cwd now serFail inspectFail state fs).1 = Result.ok ()) :
    load dir (store dir cwd now serFail inspectFail state fs).2.1 = Result.ok state := by
  by_cases hs : serFail = true
  · subst hs
    rw [store_eq_serFail] at hok
    simp at hok
  · have hs0 : serFail = false := by simpa using hs
    subst hs0
    by_cases hc : (fsLookup (storeSwapped dir now state fs) (pointerPath dir)).isSome = true
    · rw [store_eq_symlinkBlocked dir cwd now inspectFail state fs hc] at hok
      simp at hok
    · have hc0 : (fsLookup (storeSwapped dir now state fs) (pointerPath dir)).isSome
        = false := by simpa using hc
      rw [store_eq_success dir cwd now inspectFail state fs hc0]
      have h1 : fsLookup (pruneLoop cwd (storeLinked dir now state fs)
          (storeToDelete dir now state fs inspectFail)).2.1 (pointerPath dir) =
          some (Entry.symlink (storePath dir now)) := by
        rw [pruneLoop_lookup cwd _ _ _
          (storeToDelete_ne_pointer dir cwd now state fs inspectFail)]
        unfold storeLinked
        exact fsLookup_fsInsert_self _ _ _
      have hdelNew : ∀ n ∈ storeToDelete dir now state fs inspectFail,
          (cwd, n) ≠ storePath dir now := by
        intro n hn he
        have hn2 : n = stateFileName now := congrArg Prod.snd he
        rw [hn2] at hn
        exact newName_not_deleted dir now state fs inspectFail hnd hmax hn
      have h2 : fsLookup (pruneLoop cwd (storeLinked dir now state fs)
          (storeToDelete dir now state fs inspectFail)).2.1 (storePath dir now) =
          some (Entry.file (encode state)) := by
        rw [pruneLoop_lookup cwd _ _ _ hdelNew]
        unfold storeLinked
        rw [fsLookup_fsInsert_ne _ _ _ _ (storePath_ne_pointerPath dir now)]
        unfold storeSwapped
        by_cases hp : ptrThere dir now state fs
        · simp only [hp, if_true]
          rw [fsLookup_fsRemoveAll_ne _ (pointerPath dir) (storePath dir now)
            (storePath_ne_pointerPath dir now)]
          exact fsLookup_storeWritten_self dir now state fs
        · simp only [hp, Bool.false_eq_true, if_false]
          exact fsLookup_storeWritten_self dir now state fs
      have hrf : readFile (pruneLoop cwd (storeLinked dir now state fs)
          (storeToDelete dir now state fs inspectFail)).2.1 (pointerPath dir) =
          some (encode state) :=
        readFile_symlink_file _ _ _ _ h1 h2
      unfold load
      rw [show ((dir, pointerName) : FPath) = pointerPath dir from rfl]
      simp [pathExists, hrf, decode_encode]

/-- Witness for C1 (amended): storing at `dtD` (later than every file in
`fsSample`) then loading returns the stored state. -/
theorem C1_witness :
    (keysNodup fsSample ∧
     (∀ n ∈ pruneCandidates (storeLinked 0 dtD ⟨[9]⟩ fsSample) 0 (fun _ => false),
       n ≠ stateFileName dtD → lexLt n (stateFileName dtD) = true) ∧
     (store 0 0 dtD false (fun _ => false) ⟨[9]⟩ fsSample).1 = Result.ok ()) ∧
    load 0 (store 0 0 dtD false (fun _ => false) ⟨[9]⟩ fsSample).2.1 =
      Result.ok ⟨[9]⟩ :=
  ⟨⟨by decide, by decide, by decide⟩,
   C1_roundtrip_amended 0 0 dtD false (fun _ => false) ⟨[9]⟩ fsSample (by decide)
     (by decide) (by decide)⟩

/-! ## C5: retention over a sequence of stores -/

theorem fsRemoveAll_nil (p : FPath) : fsRemoveAll [] p = [] := rfl

theorem nameStarts_stateFileName (t : DateTime) :
    nameStarts STATE_DEFAULT_STEM (stateFileName t) = true := by
  have h5 : STATE_DEFAULT_STEM = [115, 116, 97, 116, 101] := by decide
  unfold stateFileName
  rw [h5]
  simp [nameStarts, List.cons_append, List.append_assoc]

theorem lexLt_ne (a b : Name) (h : lexLt a b = true) : a ≠ b := by
  intro he
  rw [he, lexLt_irrefl] at h
  exact absurd h (by simp)

/-- One store into an empty directory: it creates the StateFile, links the
pointer, and prunes nothing. -/
theorem store_base (dir : DirPath) (t : DateTime) (s : BrokerState) :
    store dir dir t false (fun _ => false) s [] =
      (Result.ok (), shapeFS dir [(t, s)],
       [Event.fileCreated (dir, stateFileName t), Event.writeCompleted (dir, stateFileName t),
        Event.ptrCreated (dir, stateFileName t)]) := by
  have hne : stateFileName t ≠ pointerName := stateFileName_ne_pointerName t
  have hne2 : pointerName ≠ stateFileName t := Ne.symm hne
  simp [store, storeOpened, storeWritten, storeSwapped, storeLinked, storeToDelete, storePath,
    pointerPath, ptrThere, pathExists, readFile, readFileAux, fsInsert, fsRemoveAll_nil,
    fsRemoveAll_cons, fsLookup, pruneCandidates, dirNames, isRegularFile, sortDesc, insertDesc,
    pruneLoop, shapeFS, nameStarts_stateFileName, hne, hne2, Prod.mk.injEq, STATE_COUNT]

/-- One store into a directory holding one StateFile and a live pointer. -/
theorem store_step_one (dir : DirPath) (t t1 : DateTime) (s s1 : BrokerState)
    (h1 : lexLt (stateFileName t1) (stateFileName t) = true) :
    (store dir dir t false (fun _ => false) s (shapeFS dir [(t1, s1)])).1 =
      Result.ok () ∧
    (store dir dir t false (fun _ => false) s (shapeFS dir [(t1, s1)])).2.1 =
      shapeFS dir [(t, s), (t1, s1)] := by
  have hne : stateFileName t ≠ pointerName := stateFileName_ne_pointerName t
  have hne2 : pointerName ≠ stateFileName t := Ne.symm hne
  have hne3 : stateFileName t1 ≠ pointerName := stateFileName_ne_pointerName t1
  have hne4 : pointerName ≠ stateFileName t1 := Ne.symm hne3
  have hd1 : stateFileName t1 ≠ stateFileName t := lexLt_ne _ _ h1
  have hd2 : stateFileName t ≠ stateFileName t1 := Ne.symm hd1
  have hno : lexLt (stateFileName t) (stateFileName t1) = false := lexLt_asymm _ _ h1
  constructor <;>
    simp [store, storeOpened, storeWritten, storeSwapped, storeLinked, storeToDelete, storePath,
      pointerPath, ptrThere, pathExists, readFile, readFileAux, fsInsert, fsRemoveAll_nil,
      fsRemoveAll_cons, fsLookup, pruneCandidates, dirNames, isRegularFile, sortDesc, insertDesc,
      pruneLoop, shapeFS, nameStarts_stateFileName, hne, hne2, hne3, hne4, hd1, hd2, h1, hno,
      Prod.mk.injEq, STATE_COUNT]

/-- One store into a directory already holding `K = 2` StateFiles: the new
file is written, the pointer repointed, and the oldest file pruned. -/
theorem store_step_two (dir : DirPath) (t t1 t2 : DateTime) (s s1 s2 : BrokerState)
    (h1 : lexLt (stateFileName t1) (stateFileName t) = true)
    (h2 : lexLt (stateFileName t2) (stateFileName t1) = true) :
    (store dir dir t false (fun _ => false) s (shapeFS dir [(t1, s1), (t2, s2)])).1 =
      Result.ok () ∧
    (store dir dir t false (fun _ => false) s (shapeFS dir [(t1, s1), (t2, s2)])).2.1 =
      shapeFS dir [(t, s), (t1, s1)] := by
  have h3 : lexLt (stateFileName t2) (stateFileName t) = true := lexLt_trans _ _ _ h2 h1
  have hne : stateFileName t ≠ pointerName := stateFileName_ne_pointerName t
  have hne3 : stateFileName t1 ≠ pointerName := stateFileName_ne_pointerName t1
  have hne5 : stateFileName t2 ≠ pointerName := stateFileName_ne_pointerName t2
  have hst : nameStarts STATE_DEFAULT_STEM (stateFileName t) = true :=
    nameStarts_stateFileName t
  have hst1 : nameStarts STATE_DEFAULT_STEM (stateFileName t1) = true :=
    nameStarts_stateFileName t1
  have hst2 : nameStarts STATE_DEFAULT_STEM (stateFileName t2) = true :=
    nameStarts_stateFileName t2
  unfold store storeToDelete storeLinked storeSwapped ptrThere storeWritten storeOpened
    storePath pointerPath shapeFS
  simp only [List.map_cons, List.map_nil]
  generalize hg : stateFileName t = m at *
  generalize hg1 : stateFileName t1 = n1 at *
  generalize hg2 : stateFileName t2 = n2 at *
  have hd1 : n1 ≠ m := lexLt_ne _ _ h1
  have hd2 : m ≠ n1 := Ne.symm hd1
  have hd3 : n2 ≠ m := lexLt_ne _ _ h3
  have hd4 : m ≠ n2 := Ne.symm hd3
  have hd5 : n2 ≠ n1 := lexLt_ne _ _ h2
  have hd6 : n1 ≠ n2 := Ne.symm hd5
  have hne2 : pointerName ≠ m := Ne.symm hne
  have hne4 : pointerName ≠ n1 := Ne.symm hne3
  have hne6 : pointerName ≠ n2 := Ne.symm hne5
  constructor <;>
    simp [pathExists, readFile, readFileAux, fsInsert, fsRemoveAll_nil, fsRemoveAll_cons,
      fsLookup, pruneCandidates, dirNames, isRegularFile, sortDesc, insertDesc, pruneLoop,
      Prod.mk.injEq, STATE_COUNT, hne, hne2, hne3, hne4, hne5, hne6, hd1, hd2, hd3, hd4,
      hd5, hd6, h1, h2, h3, hst, hst1, hst2]

theorem storeSeq_cons_ok (dir cwd : DirPath) (t : DateTime) (s : BrokerState)
    (rest : List (DateTime × BrokerState)) (fs : FS)
    (h : (store dir cwd t false (fun _ => false) s fs).1 = Result.ok ()) :
    storeSeq dir cwd ((t, s) :: rest) fs =
      storeSeq dir cwd rest (store dir cwd t false (fun _ => false) s fs).2.1 := by
  rcases hx : store dir cwd t false (fun _ => false) s fs with ⟨r, fs2, ev⟩
  rw [hx] at h
  simp at h
  subst h
  simp [storeSeq, hx]

theorem chain_lexLt_all (c : DateTime × BrokerState) (l : List (DateTime × BrokerState))
    (h : List.Chain' (fun a b => lexLt (stateFileName a.1) (stateFileName b.1) = true)
      (c :: l)) :
    ∀ b ∈ l, lexLt (stateFileName c.1) (stateFileName b.1) = true := by
  induction l generalizing c with
  | nil => simp
  | cons d ds ih =>
    intro b hb
    have h1 : lexLt (stateFileName c.1) (stateFileName d.1) = true :=
      (List.chain'_cons.mp h).1
    rcases List.mem_cons.mp hb with hbd | hb2
    · rw [hbd]
      exact h1
    · exact lexLt_trans _ _ _ h1 (ih d (List.chain'_cons.mp h).2 b hb2)

theorem stateFileName_lt (t1 t2 : DateTime) (v1 : t1.valid) (v2 : t2.valid)
    (y1 : t1.year < 10000) (y2 : t2.year < 10000) (h : DateTime.lt t1 t2) :
    lexLt (stateFileName t1) (stateFileName t2) = true := by
  unfold stateFileName
  simp only [List.append_assoc]
  rw [lexLt_append_same, lexLt_append_same]
  exact (timestamp_suffix_lt t1 t2 _ v1 v2 y1 y2).mpr h

theorem chain_name_of_dt (calls : List (DateTime × BrokerState))
    (hv : ∀ c ∈ calls, DateTime.valid c.1 ∧ c.1.year < 10000)
    (hinc : List.Chain' (fun a b => DateTime.lt a.1 b.1) calls) :
    List.Chain' (fun a b => lexLt (stateFileName a.1) (stateFileName b.1) = true) calls := by
  induction calls with
  | nil => simp
  | cons c cs ih =>
    rcases cs with _ | ⟨d, ds⟩
    · simp
    · rw [List.chain'_cons] at hinc ⊢
      obtain ⟨hvc1, hvc2⟩ := hv c (by simp)
      obtain ⟨hvd1, hvd2⟩ := hv d (by simp)
      exact ⟨stateFileName_lt c.1 d.1 hvc1 hvd1 hvc2 hvd2 hinc.1,
        ih (fun x hx => hv x (List.mem_cons_of_mem _ hx)) hinc.2⟩

theorem take_append_take {α : Type} (A l : List α) (k : Nat) :
    (A ++ l.take k).take k = (A ++ l).take k := by
  rw [List.take_append_eq_append_take, List.take_append_eq_append_take, List.take_take]
  congr 1
  rw [Nat.min_eq_left (Nat.sub_le k A.length)]

/-- The workhorse induction: running successful stores one at a time over a
canonical directory keeps it canonical, retaining the two newest files. -/
theorem storeSeq_shape (dir : DirPath) (rest : List (DateTime × BrokerState)) :
    ∀ kept : List (DateTime × BrokerState), kept ≠ [] → kept.length ≤ 2 →
    (∀ c ∈ rest, ∀ k ∈ kept, lexLt (stateFileName k.1) (stateFileName c.1) = true) →
    List.Chain' (fun a b => lexLt (stateFileName b.1) (stateFileName a.1) = true) kept →
    List.Chain' (fun a b => lexLt (stateFileName a.1) (stateFileName b.1) = true) rest →
    (storeSeq dir dir rest (shapeFS dir kept)).1 = Result.ok () ∧
    (storeSeq dir dir rest (shapeFS dir kept)).2 =
      shapeFS dir ((rest.reverse ++ kept).take 2) := by
  induction rest with
  | nil =>
    intro kept hk hlen _ _ _
    refine ⟨rfl, ?_⟩
    simp only [storeSeq, List.reverse_nil, List.nil_append]
    rw [List.take_of_length_le hlen]
  | cons c rest2 ih =>
    intro kept hk hlen hgt hdec hinc
    obtain ⟨t, s⟩ := c
    rcases kept with _ | ⟨⟨t1, s1⟩, kept2⟩
    · exact absurd rfl hk
    rcases kept2 with _ | ⟨⟨t2, s2⟩, kept3⟩
    · have h1 : lexLt (stateFileName t1) (stateFileName t) = true :=
        hgt (t, s) (by simp) (t1, s1) (by simp)
      have hstep := store_step_one dir t t1 s s1 h1
      rw [storeSeq_cons_ok dir dir t s rest2 _ hstep.1, hstep.2]
      have hgt2 : ∀ c2 ∈ rest2, ∀ k ∈ [(t, s), (t1, s1)],
          lexLt (stateFileName k.1) (stateFileName c2.1) = true := by
        intro c2 hc2 k hkmem
        rcases List.mem_cons.mp hkmem with hk1 | hkmem2
        · rw [hk1]
          exact chain_lexLt_all (t, s) rest2 hinc c2 hc2
        · rcases List.mem_cons.mp hkmem2 with hk2 | hkmem3
          · rw [hk2]
            exact hgt c2 (List.mem_cons_of_mem _ hc2) (t1, s1) (by simp)
          · simp at hkmem3
      have hdec2 : List.Chain'
          (fun a b => lexLt (stateFileName b.1) (stateFileName a.1) = true)
          [(t, s), (t1, s1)] := by
        simp [List.chain'_cons, h1]
      have hres := ih [(t, s), (t1, s1)] (by simp) (by simp) hgt2 hdec2
        ((List.chain'_cons'.mp hinc).2)
      refine ⟨hres.1, ?_⟩
      rw [hres.2]
      simp only [List.reverse_cons, List.append_assoc, List.singleton_append]
    · rcases kept3 with _ | ⟨k4, kept4⟩
      · have h1 : lexLt (stateFileName t1) (stateFileName t) = true :=
          hgt (t, s) (by simp) (t1, s1) (by simp)
        have h2 : lexLt (stateFileName t2) (stateFileName t1) = true :=
          (List.chain'_cons.mp hdec).1
        have hstep := store_step_two dir t t1 t2 s s1 s2 h1 h2
        rw [storeSeq_cons_ok dir dir t s rest2 _ hstep.1, hstep.2]
        have hgt2 : ∀ c2 ∈ rest2, ∀ k ∈ [(t, s), (t1, s1)],
            lexLt (stateFileName k.1) (stateFileName c2.1) = true := by
          intro c2 hc2 k hkmem
          rcases List.mem_cons.mp hkmem with hk1 | hkmem2
          · rw [hk1]
            exact chain_lexLt_all (t, s) rest2 hinc c2 hc2
          · rcases List.mem_cons.mp hkmem2 with hk2 | hkmem3
            · rw [hk2]
              exact hgt c2 (List.mem_cons_of_mem _ hc2) (t1, s1) (by simp)
            · simp at hkmem3
        have hdec2 : List.Chain'
            (fun a b => lexLt (stateFileName b.1) (stateFileName a.1) = true)
            [(t, s), (t1, s1)] := by
          simp [List.chain'_cons, h1]
        have hres := ih [(t, s), (t1, s1)] (by simp) (by simp) hgt2 hdec2
          ((List.chain'_cons'.mp hinc).2)
        refine ⟨hres.1, ?_⟩
        rw [hres.2]
        simp only [List.reverse_cons, List.append_assoc, List.singleton_append]
        have hlists : (rest2.reverse ++ [(t, s), (t1, s1)]).take 2 =
            (rest2.reverse ++ (t, s) :: (t1, s1) :: (t2, s2) :: []).take 2 := by
          rw [show ([(t, s), (t1, s1)] : List (DateTime × BrokerState)) =
            ((t, s) :: (t1, s1) :: (t2, s2) :: []).take 2 from rfl]
          rw [take_append_take]
        rw [hlists]
      · rw [List.length_cons, List.length_cons, List.length_cons] at hlen
        omega

theorem fsLookup_fileList (dir : DirPath) (L : List (DateTime × BrokerState)) (n : Name)
    (h : ∃ c ∈ L, n = stateFileName c.1) :
    ∃ bytes, fsLookup
      (L.map (fun c => ((dir, stateFileName c.1), Entry.file (encode c.2)))) (dir, n) =
      some (Entry.file bytes) := by
  induction L with
  | nil =>
    obtain ⟨c, hc, -⟩ := h
    simp at hc
  | cons d ds ih =>
    by_cases hd : stateFileName d.1 = n
    · exact ⟨encode d.2, by simp [fsLookup, hd]⟩
    · obtain ⟨c, hc, hcn⟩ := h
      rcases List.mem_cons.mp hc with hcd | hc2
      · rw [hcd] at hcn
        exact absurd hcn.symm hd
      · obtain ⟨bytes, hb⟩ := ih ⟨c, hc2, hcn⟩
        refine ⟨bytes, ?_⟩
        simp only [List.map_cons, fsLookup]
        rw [if_neg (by simp [hd])]
        exact hb

theorem dirNames_cons (qe : FPath × Entry) (fs : FS) (dir : DirPath) :
    dirNames (qe :: fs) dir =
      if qe.1.1 = dir then qe.1.2 :: dirNames fs dir else dirNames fs dir := by
  by_cases h : qe.1.1 = dir <;> simp [dirNames, List.filterMap_cons, h]

theorem dirNames_fileList (dir : DirPath) (L : List (DateTime × BrokerState)) :
    dirNames (L.map (fun c => ((dir, stateFileName c.1), Entry.file (encode c.2)))) dir =
      L.map (fun c => stateFileName c.1) := by
  induction L with
  | nil => rfl
  | cons d ds ih =>
    rw [List.map_cons, dirNames_cons]
    simp [ih]

theorem stateFiles_shapeFS (dir : DirPath) (kept : List (DateTime × BrokerState))
    (hk : kept ≠ []) :
    stateFiles (shapeFS dir kept) dir = kept.map (fun c => stateFileName c.1) := by
  rcases kept with _ | ⟨⟨t0, s0⟩, krest⟩
  · exact absurd rfl hk
  have hdn : dirNames (shapeFS dir ((t0, s0) :: krest)) dir =
      pointerName :: ((t0, s0) :: krest).map (fun c => stateFileName c.1) := by
    unfold shapeFS
    rw [dirNames_cons, dirNames_fileList]
    simp
  unfold stateFiles
  rw [hdn, List.filter_cons]
  have hptr : (isRegularFile (shapeFS dir ((t0, s0) :: krest)) (dir, pointerName) &&
      nameStarts STATE_DEFAULT_STEM pointerName) = false := by
    have hlp : isRegularFile (shapeFS dir ((t0, s0) :: krest)) (dir, pointerName) = false := by
      unfold isRegularFile shapeFS
      simp [fsLookup]
    rw [hlp]
    rfl
  rw [hptr]
  simp only [Bool.false_eq_true, if_false]
  apply List.filter_eq_self.mpr
  intro n hn
  obtain ⟨c, hcmem, hcn⟩ := List.mem_map.mp hn
  have hns : nameStarts STATE_DEFAULT_STEM n = true := by
    rw [← hcn]
    exact nameStarts_stateFileName c.1
  have hnp : ((dir, pointerName) : FPath) ≠ (dir, n) := by
    intro he
    have h2 : pointerName = n := congrArg Prod.snd he
    rw [← hcn] at h2
    exact stateFileName_ne_pointerName c.1 h2.symm
  have hreg : isRegularFile (shapeFS dir ((t0, s0) :: krest)) (dir, n) = true := by
    obtain ⟨bytes, hb⟩ := fsLookup_fileList dir ((t0, s0) :: krest) n ⟨c, hcmem, hcn.symm⟩
    unfold isRegularFile
    rw [show fsLookup (shapeFS dir ((t0, s0) :: krest)) (dir, n) =
      (if ((dir, pointerName) : FPath) = (dir, n)
       then some (Entry.symlink (dir, stateFileName t0))
       else fsLookup (((t0, s0) :: krest).map
         (fun c2 => ((dir, stateFileName c2.1), Entry.file (encode c2.2)))) (dir, n))
      from rfl]
    rw [if_neg hnp, hb]
  rw [hreg, hns]
  rfl

theorem fsLookup_shapeFS_ptr (dir : DirPath) (t0 : DateTime) (s0 : BrokerState)
    (krest : List (DateTime × BrokerState)) :
    fsLookup (shapeFS dir ((t0, s0) :: krest)) (pointerPath dir) =
      some (Entry.symlink (dir, stateFileName t0)) := by
  unfold shapeFS pointerPath
  simp [fsLookup]

/-- C5 (amended): with the process working directory equal to the
persistence directory, N successful stores with strictly increasing valid
timestamps (years below 10000) starting from an empty directory leave,
after the N-th store, exactly min(N, K) StateFiles (K = STATE_COUNT = 2)
plus one pointer referencing the most recently stored StateFile; applying
the theorem to each prefix of the call sequence gives the property after
every store. -/
theorem C5_retention_amended (dir : DirPath) (calls : List (DateTime × BrokerState))
    (hv : ∀ c ∈ calls, DateTime.valid c.1 ∧ c.1.year < 10000)
    (hinc : List.Chain' (fun a b => DateTime.lt a.1 b.1) calls)
    (hne : calls ≠ []) :
    (storeSeq dir dir calls []).1 = Result.ok () ∧
    (stateFiles (storeSeq dir dir calls []).2 dir).length = min calls.length STATE_COUNT ∧
    (∀ d ds, calls.reverse = d :: ds →
      fsLookup (storeSeq dir dir calls []).2 (pointerPath dir) =
        some (Entry.symlink (dir, stateFileName d.1))) := by
  have hincn := chain_name_of_dt calls hv hinc
  rcases calls with _ | ⟨⟨t0, s0⟩, rest⟩
  · exact absurd rfl hne
  have hbase1 : (store dir dir t0 false (fun _ => false) s0 []).1 = Result.ok () := by
    rw [store_base]
  have hbase2 : (store dir dir t0 false (fun _ => false) s0 []).2.1 =
      shapeFS dir [(t0, s0)] := by
    rw [store_base]
  have hseq := storeSeq_cons_ok dir dir t0 s0 rest [] hbase1
  have haux := storeSeq_shape dir rest [(t0, s0)] (by simp) (by simp)
    (fun c hc k hkm => by
      rcases List.mem_cons.mp hkm with hk0 | hk0
      · rw [hk0]
        exact chain_lexLt_all (t0, s0) rest hincn c hc
      · simp at hk0)
    (by simp)
    ((List.chain'_cons'.mp hincn).2)
  refine ⟨?_, ?_, ?_⟩
  · rw [hseq, hbase2]
    exact haux.1
  · rw [hseq, hbase2, haux.2]
    have hkne : ((rest.reverse ++ [(t0, s0)]).take 2) ≠ [] := by
      cases hrr : rest.reverse with
      | nil => simp
      | cons x xs => simp
    rw [stateFiles_shapeFS dir _ hkne, List.length_map, List.length_take,
      List.length_append, List.length_reverse]
    simp [STATE_COUNT]
    omega
  · intro d ds hrev
    rw [hseq, hbase2, haux.2]
    rw [List.reverse_cons] at hrev
    rw [hrev]
    obtain ⟨td, sd⟩ := d
    rw [show ((td, sd) :: ds).take 2 = (td, sd) :: ds.take 1 from rfl]
    exact fsLookup_shapeFS_ptr dir td sd (ds.take 1)

/-- Witness for C5 (amended): three stores five minutes apart from an empty
directory leave two StateFiles plus the pointer to the third file. -/
theorem C5_witness :
    ((∀ c ∈ [(dtA, (⟨[1]⟩ : BrokerState)), (dtB, ⟨[2]⟩), (dtC, ⟨[3]⟩)],
        DateTime.valid c.1 ∧ c.1.year < 10000) ∧
     List.Chain' (fun a b => DateTime.lt a.1 b.1)
       [(dtA, (⟨[1]⟩ : BrokerState)), (dtB, ⟨[2]⟩), (dtC, ⟨[3]⟩)]) ∧
    ((storeSeq 0 0 [(dtA, ⟨[1]⟩), (dtB, ⟨[2]⟩), (dtC, ⟨[3]⟩)] []).1 = Result.ok () ∧
     (stateFiles (storeSeq 0 0 [(dtA, ⟨[1]⟩), (dtB, ⟨[2]⟩), (dtC, ⟨[3]⟩)] []).2 0).length =
       min 3 STATE_COUNT ∧
     (∀ d ds,
        ([(dtA, (⟨[1]⟩ : BrokerState)), (dtB, ⟨[2]⟩), (dtC, ⟨[3]⟩)]).reverse = d :: ds →
        fsLookup (storeSeq 0 0 [(dtA, ⟨[1]⟩), (dtB, ⟨[2]⟩), (dtC, ⟨[3]⟩)] []).2
            (pointerPath 0) = some (Entry.symlink (0, stateFileName d.1)))) :=
  ⟨⟨by decide, by simp [List.chain'_cons, List.chain'_singleton, dtA, dtB, dtC]; decide⟩,
   C5_retention_amended 0 [(dtA, ⟨[1]⟩), (dtB, ⟨[2]⟩), (dtC, ⟨[3]⟩)]
     (by decide)
     (by simp [List.chain'_cons, List.chain'_singleton, dtA, dtB, dtC]; decide)
     (by decide)⟩

/-- C5 counterexample: with the process working directory different from
the persistence directory, N = 3 > K = 2 stores can all succeed (the
pruning unlink happens to find a same-named file in the working directory)
while three StateFiles remain in the state directory — "exactly K remain"
fails on the code. -/
theorem C5_counterexample :
    (storeSeq 0 1 [(dtA, ⟨[1]⟩), (dtB, ⟨[2]⟩), (dtC, ⟨[3]⟩)]
        [((1, stateFileName dtA), Entry.file [0])]).1 = Result.ok () ∧
    (stateFiles (storeSeq 0 1 [(dtA, ⟨[1]⟩), (dtB, ⟨[2]⟩), (dtC, ⟨[3]⟩)]
        [((1, stateFileName dtA), Entry.file [0])]).2 0).length = 3 := by
  decide

end MqttPersist
